import Mathlib

/-!
# Verification of the opentui text-engine core

This file gives a shallow embedding, in Lean 4, of the UTF-8 scanner and
grapheme/width engine of the opentui text engine (the Zig module holding
`isAsciiOnly`, `findLineBreaks`, `decodeUtf8Unchecked`, the width and
grapheme-cluster functions), and of the TypeScript `TextBufferView` wrapper,
together with theorems settling the specification claims about them.

Conventions:
* A byte string is a `List Nat` (each element the value of one `u8`; the
  source indexes bytes, which we mirror with `List.getD text pos 0` at
  in-bounds positions).
* Codepoints (`u21`) are `Nat`.
* The Zig `while` loops are embedded as fuel-indexed recursions: the fuel is
  an upper bound on the number of remaining iterations, every caller passes
  enough fuel, and running out of fuel behaves like normal loop exit so the
  functions compute by structural recursion.
* The external `uucode` Unicode property tables (East-Asian width, general
  category, the UAX 29 pair-wise grapheme break with its mutable break
  state) are not part of this repository; the embedding abstracts them as a
  `UnicodeTables` parameter. `demoTables` below instantiates them, matching
  the real Unicode data on precisely the codepoints used in concrete test
  inputs.
-/

/-- The method to use when calculating the width of a grapheme
(`pub const WidthMethod = enum` in the source). -/
inductive WidthMethod where
  | wcwidth
  | unicode
  | no_zwj
deriving DecidableEq, Repr

/-- East-Asian width property values (`uucode.types.EastAsianWidth`). -/
inductive EastAsianWidth where
  | narrow
  | wide
  | fullwidth
  | halfwidth
  | ambiguous
  | neutral
deriving DecidableEq, Repr

/-- The general-category values the engine branches on.  The source's
`uucode` enum has the full Unicode set; the width engine only ever tests
membership in the three mark categories, so all remaining categories are
collapsed into `other`. -/
inductive GeneralCategory where
  | mark_nonspacing
  | mark_spacing_combining
  | mark_enclosing
  | other
deriving DecidableEq, Repr

/-- The external `uucode` Unicode data, abstracted: per-codepoint East-Asian
width and general category, and the stateful pair-wise grapheme-break
predicate `uucode.grapheme.isBreak` (the break state is abstracted as a
`Nat`, with `0` as the `.default` state; `isBreak` returns the break verdict
together with the updated state, mirroring the `*BreakState` out-parameter). -/
structure UnicodeTables where
  eaw : Nat → EastAsianWidth
  gc : Nat → GeneralCategory
  isBreak : Nat → Nat → Nat → Bool × Nat

/-- Result of `decodeUtf8Unchecked`: one codepoint and its byte length. -/
structure DecodeResult where
  cp : Nat
  len : Nat
deriving DecidableEq, Repr

/-- Decode a UTF-8 codepoint starting at pos.  Assumes valid UTF-8 input.
Returns (codepoint, length); if the remaining bytes are insufficient,
returns (U+FFFD, 1).  Mirrors `decodeUtf8Unchecked` byte-for-byte. -/
def decodeUtf8Unchecked (text : List Nat) (pos : Nat) : DecodeResult :=
  let b0 := text.getD pos 0
  if b0 < 0x80 then ⟨b0, 1⟩
  else if pos + 1 ≥ text.length then ⟨0xFFFD, 1⟩
  else
    let b1 := text.getD (pos + 1) 0
    if b0 &&& 0xE0 = 0xC0 then ⟨((b0 &&& 0x1F) <<< 6) ||| (b1 &&& 0x3F), 2⟩
    else if pos + 2 ≥ text.length then ⟨0xFFFD, 1⟩
    else
      let b2 := text.getD (pos + 2) 0
      if b0 &&& 0xF0 = 0xE0 then
        ⟨((b0 &&& 0x0F) <<< 12) ||| ((b1 &&& 0x3F) <<< 6) ||| (b2 &&& 0x3F), 3⟩
      else if pos + 3 ≥ text.length then ⟨0xFFFD, 1⟩
      else
        let b3 := text.getD (pos + 3) 0
        ⟨((b0 &&& 0x07) <<< 18) ||| ((b1 &&& 0x3F) <<< 12) |||
          ((b2 &&& 0x3F) <<< 6) ||| (b3 &&& 0x3F), 4⟩

/-- The SIMD16 test of `isAsciiOnly`: does any of the 16 bytes starting at
`pos` fall outside the printable range `[32, 126]`?  (`too_low or too_high`
reduced with `Or` in the source.) -/
def chunkAnyNonPrintable (text : List Nat) (pos : Nat) : Bool :=
  (List.range 16).any fun i =>
    text.getD (pos + i) 0 < 32 || 126 < text.getD (pos + i) 0

/-- The scalar remainder loop of `isAsciiOnly`. -/
def isAsciiScalarLoop (text : List Nat) : Nat → Nat → Bool
  | 0, _ => true
  | fuel + 1, pos =>
    if pos < text.length then
      let b := text.getD pos 0
      if b < 32 || 126 < b then false
      else isAsciiScalarLoop text fuel (pos + 1)
    else true

/-- The 16-byte vector loop of `isAsciiOnly`. -/
def isAsciiVecLoop (text : List Nat) : Nat → Nat → Bool
  | 0, pos => isAsciiScalarLoop text text.length pos
  | fuel + 1, pos =>
    if pos + 16 ≤ text.length then
      if chunkAnyNonPrintable text pos then false
      else isAsciiVecLoop text fuel (pos + 16)
    else isAsciiScalarLoop text text.length pos

/-- Check if a byte slice contains only printable ASCII (32..126); empty
input returns false.  Mirrors `isAsciiOnly` (SIMD16 main loop plus scalar
tail). -/
def isAsciiOnly (text : List Nat) : Bool :=
  if text.length = 0 then false
  else isAsciiVecLoop text text.length 0

/-- Kinds of hard line terminator (`pub const LineBreakKind = enum`). -/
inductive LineBreakKind where
  | LF
  | CR
  | CRLF
deriving DecidableEq, Repr

/-- One reported line terminator: its byte index and kind. -/
structure LineBreak where
  pos : Nat
  kind : LineBreakKind
deriving DecidableEq, Repr

/-- Does the 16-byte chunk at `pos` contain a `\n` or `\r`?  (The two SIMD
comparisons of `findLineBreaks`, each reduced with `Or`.) -/
def chunkHasNLorCR (text : List Nat) (pos : Nat) : Bool :=
  (List.range 16).any fun i =>
    text.getD (pos + i) 0 = 10 || text.getD (pos + i) 0 = 13

/-- The inner per-byte loop that `findLineBreaks` runs over a 16-byte chunk
that contains a match.  `base` is the chunk start, `i` the loop counter
(the source increments it by 1 each round, plus once more inside the CRLF
branch), `flag` is `prev_was_cr`, consulted only at `i = 0`. -/
def lineBreakChunkLoop (text : List Nat) (base : Nat) : Nat → Nat → Bool → List LineBreak
  | 0, _, _ => []
  | fuel + 1, i, flag =>
    if i < 16 then
      let p := base + i
      let b := text.getD p 0
      if b = 10 then
        if i = 0 ∧ flag then lineBreakChunkLoop text base fuel (i + 1) false
        else
          let kind := if p > 0 ∧ text.getD (p - 1) 0 = 13 then LineBreakKind.CRLF
            else LineBreakKind.LF
          ⟨p, kind⟩ :: lineBreakChunkLoop text base fuel (i + 1) flag
      else if b = 13 then
        if p + 1 < text.length ∧ text.getD (p + 1) 0 = 10 then
          ⟨p + 1, LineBreakKind.CRLF⟩ :: lineBreakChunkLoop text base fuel (i + 2) flag
        else
          ⟨p, LineBreakKind.CR⟩ :: lineBreakChunkLoop text base fuel (i + 1) flag
      else lineBreakChunkLoop text base fuel (i + 1) flag
    else []

/-- The scalar tail loop of `findLineBreaks` (handles the bytes after the
last full 16-byte chunk; `flag` is the carried `prev_was_cr`). -/
def lineBreakScalarLoop (text : List Nat) : Nat → Nat → Bool → List LineBreak
  | 0, _, _ => []
  | fuel + 1, pos, flag =>
    if pos < text.length then
      let b := text.getD pos 0
      if b = 10 then
        if pos > 0 ∧ text.getD (pos - 1) 0 = 13 ∧ flag then
          lineBreakScalarLoop text fuel (pos + 1) false
        else
          let kind := if pos > 0 ∧ text.getD (pos - 1) 0 = 13 then LineBreakKind.CRLF
            else LineBreakKind.LF
          ⟨pos, kind⟩ :: lineBreakScalarLoop text fuel (pos + 1) false
      else if b = 13 then
        if pos + 1 < text.length ∧ text.getD (pos + 1) 0 = 10 then
          ⟨pos + 1, LineBreakKind.CRLF⟩ :: lineBreakScalarLoop text fuel (pos + 2) false
        else
          ⟨pos, LineBreakKind.CR⟩ :: lineBreakScalarLoop text fuel (pos + 1) false
      else lineBreakScalarLoop text fuel (pos + 1) false
    else []

/-- The 16-byte vector loop of `findLineBreaks`: chunks with a match are
scanned by the inner loop and set `prev_was_cr` from the chunk's last byte;
chunks without a match clear it. -/
def lineBreakVecLoop (text : List Nat) : Nat → Nat → Bool → List LineBreak
  | 0, pos, flag => lineBreakScalarLoop text text.length pos flag
  | fuel + 1, pos, flag =>
    if pos + 16 ≤ text.length then
      if chunkHasNLorCR text pos then
        lineBreakChunkLoop text pos 16 0 flag ++
          lineBreakVecLoop text fuel (pos + 16) (text.getD (pos + 15) 0 = 13)
      else lineBreakVecLoop text fuel (pos + 16) false
    else lineBreakScalarLoop text text.length pos flag

/-- Find all hard line terminators.  Mirrors `findLineBreaks` (SIMD16 main
loop with cross-chunk CRLF carry, then scalar tail). -/
def findLineBreaks (text : List Nat) : List LineBreak :=
  lineBreakVecLoop text text.length 0 false

/-- Declarative per-position classification of line terminators, written
from the specification: a `\n` is reported at its own index, as `CRLF` when
preceded by `\r` and as `LF` otherwise; a `\r` not followed by `\n` is
reported as `CR` at its own index; a `\r` followed by `\n` is not reported
separately. -/
def lineBreakClassify (text : List Nat) (p : Nat) : Option LineBreak :=
  let b := text.getD p 0
  if b = 10 then
    if p > 0 ∧ text.getD (p - 1) 0 = 13 then some ⟨p, LineBreakKind.CRLF⟩
    else some ⟨p, LineBreakKind.LF⟩
  else if b = 13 then
    if p + 1 < text.length ∧ text.getD (p + 1) 0 = 10 then none
    else some ⟨p, LineBreakKind.CR⟩
  else none

/-- The specification's list of line breaks: classify every position. -/
def lineBreakSpec (text : List Nat) : List LineBreak :=
  (List.range text.length).filterMap (lineBreakClassify text)

/-! ## Claim C8: `isAsciiOnly` characterization -/

theorem forall_mem_iff_index (text : List Nat) (P : Nat → Prop) :
    (∀ b ∈ text, P b) ↔ ∀ i, i < text.length → P (text.getD i 0) := by
  constructor
  · intro h i hi
    rw [List.getD_eq_getElem text 0 hi]
    exact h _ (List.getElem_mem hi)
  · intro h b hb
    obtain ⟨i, hi, rfl⟩ := List.mem_iff_getElem.1 hb
    rw [← List.getD_eq_getElem text 0 hi]
    exact h i hi

theorem isAsciiScalarLoop_spec (text : List Nat) :
    ∀ fuel pos, text.length ≤ pos + fuel →
      (isAsciiScalarLoop text fuel pos = true ↔
        ∀ i, pos ≤ i → i < text.length → 32 ≤ text.getD i 0 ∧ text.getD i 0 ≤ 126) := by
  intro fuel
  induction fuel with
  | zero =>
    intro pos hle
    simp only [isAsciiScalarLoop, true_iff]
    intro i hpi hil
    omega
  | succ fuel ih =>
    intro pos hle
    simp only [isAsciiScalarLoop]
    by_cases hp : pos < text.length
    · simp only [if_pos hp]
      by_cases hbad : text.getD pos 0 < 32 || 126 < text.getD pos 0
      · simp only [if_pos hbad]
        simp only [Bool.or_eq_true, decide_eq_true_eq] at hbad
        constructor
        · intro h; exact absurd h (by simp)
        · intro h
          have := h pos le_rfl hp
          omega
      · simp only [if_neg hbad]
        simp only [Bool.or_eq_true, decide_eq_true_eq, not_or, not_lt] at hbad
        rw [ih (pos + 1) (by omega)]
        constructor
        · intro h i hpi hil
          rcases Nat.eq_or_lt_of_le hpi with rfl | hlt
          · exact ⟨hbad.1, hbad.2⟩
          · exact h i hlt hil
        · intro h i hpi hil
          exact h i (by omega) hil
    · simp only [if_neg hp, true_iff]
      intro i hpi hil
      omega

theorem chunkAnyNonPrintable_spec (text : List Nat) (pos : Nat) :
    chunkAnyNonPrintable text pos = true ↔
      ∃ i, i < 16 ∧ (text.getD (pos + i) 0 < 32 ∨ 126 < text.getD (pos + i) 0) := by
  simp only [chunkAnyNonPrintable, List.any_eq_true, List.mem_range, Bool.or_eq_true,
    decide_eq_true_eq]

theorem isAsciiVecLoop_spec (text : List Nat) :
    ∀ fuel pos,
      (isAsciiVecLoop text fuel pos = true ↔
        ∀ i, pos ≤ i → i < text.length → 32 ≤ text.getD i 0 ∧ text.getD i 0 ≤ 126) := by
  intro fuel
  induction fuel with
  | zero =>
    intro pos
    exact isAsciiScalarLoop_spec text text.length pos (by omega)
  | succ fuel ih =>
    intro pos
    simp only [isAsciiVecLoop]
    by_cases hp : pos + 16 ≤ text.length
    · simp only [if_pos hp]
      by_cases hany : chunkAnyNonPrintable text pos
      · simp only [if_pos hany]
        obtain ⟨i, hi, hbad⟩ := (chunkAnyNonPrintable_spec text pos).1 hany
        constructor
        · intro h; exact absurd h (by simp)
        · intro h
          have := h (pos + i) (by omega) (by omega)
          omega
      · simp only [if_neg hany]
        have hall : ∀ i, i < 16 →
            32 ≤ text.getD (pos + i) 0 ∧ text.getD (pos + i) 0 ≤ 126 := by
          intro i hi
          by_contra hcon
          exact hany ((chunkAnyNonPrintable_spec text pos).2 ⟨i, hi, by omega⟩)
        rw [ih (pos + 16)]
        constructor
        · intro h i hpi hil
          by_cases hlt : i < pos + 16
          · have := hall (i - pos) (by omega)
            have heq : pos + (i - pos) = i := by omega
            rw [heq] at this
            exact this
          · exact h i (by omega) hil
        · intro h i hpi hil
          exact h i (by omega) hil
    · simp only [if_neg hp]
      exact isAsciiScalarLoop_spec text text.length pos (by omega)

/-- C8: `is_ascii_only(bytes)` returns true iff the input is non-empty and
every byte is in `[0x20, 0x7E]`; in particular the empty input returns
false. -/
theorem isAsciiOnly_iff_nonempty_printable :
    (∀ text : List Nat,
      (isAsciiOnly text = true ↔ text ≠ [] ∧ ∀ b ∈ text, 32 ≤ b ∧ b ≤ 126)) ∧
    isAsciiOnly [] = false := by
  constructor
  · intro text
    unfold isAsciiOnly
    by_cases hlen : text.length = 0
    · simp only [if_pos hlen]
      have : text = [] := List.length_eq_zero.1 hlen
      subst this
      simp
    · simp only [if_neg hlen]
      rw [isAsciiVecLoop_spec text text.length 0]
      rw [forall_mem_iff_index text (fun b => 32 ≤ b ∧ b ≤ 126)]
      constructor
      · intro h
        refine ⟨fun hnil => hlen (by simp [hnil]), fun i hi => h i (by omega) hi⟩
      · intro h i _ hi
        exact h.2 i hi
  · rfl

/-! ## Claim C4: `findLineBreaks` equals the per-position classification -/

/-- Straight-line scalar reference scan for line terminators: the semantics
the chunked scanner is proved to implement.  It consumes a CRLF pair in one
step, reporting it at the index of the `\n`. -/
def lineBreakRefScan (text : List Nat) (p : Nat) : List LineBreak :=
  if _h : p < text.length then
    let b := text.getD p 0
    if b = 10 then
      (⟨p, if p > 0 ∧ text.getD (p - 1) 0 = 13 then LineBreakKind.CRLF
        else LineBreakKind.LF⟩ : LineBreak) :: lineBreakRefScan text (p + 1)
    else if b = 13 then
      if p + 1 < text.length ∧ text.getD (p + 1) 0 = 10 then
        ⟨p + 1, LineBreakKind.CRLF⟩ :: lineBreakRefScan text (p + 2)
      else ⟨p, LineBreakKind.CR⟩ :: lineBreakRefScan text (p + 1)
    else lineBreakRefScan text (p + 1)
  else []
termination_by text.length - p
decreasing_by all_goals omega

/-- The reference scan entered with the cross-chunk `prev_was_cr` carry: a
leading `\n` already consumed as the tail of a CRLF is skipped. -/
def lineBreakRefSkip (text : List Nat) (p : Nat) (flag : Bool) : List LineBreak :=
  if flag = true ∧ p < text.length ∧ text.getD p 0 = 10 then lineBreakRefScan text (p + 1)
  else lineBreakRefScan text p

theorem lineBreakRefScan_stop (text : List Nat) (p : Nat) (h : ¬ p < text.length) :
    lineBreakRefScan text p = [] := by
  rw [lineBreakRefScan]
  simp [h]

theorem lineBreakRefSkip_false (text : List Nat) (pos : Nat) :
    lineBreakRefSkip text pos false = lineBreakRefScan text pos := by
  unfold lineBreakRefSkip
  rw [if_neg]
  intro h
  exact Bool.false_ne_true h.1

theorem lineBreakRefSkip_skip (text : List Nat) (pos : Nat) (h : pos < text.length)
    (hb : text.getD pos 0 = 10) :
    lineBreakRefSkip text pos true = lineBreakRefScan text (pos + 1) := by
  unfold lineBreakRefSkip
  exact if_pos ⟨rfl, h, hb⟩

theorem lineBreakRefSkip_noskip (text : List Nat) (pos : Nat) (flag : Bool)
    (hb : ¬ (pos < text.length ∧ text.getD pos 0 = 10)) :
    lineBreakRefSkip text pos flag = lineBreakRefScan text pos := by
  unfold lineBreakRefSkip
  rw [if_neg]
  intro h
  exact hb ⟨h.2.1, h.2.2⟩

theorem lineBreakRefScan_nl (text : List Nat) (pos : Nat) (h : pos < text.length)
    (hb : text.getD pos 0 = 10) :
    lineBreakRefScan text pos =
      (⟨pos, if pos > 0 ∧ text.getD (pos - 1) 0 = 13 then LineBreakKind.CRLF
        else LineBreakKind.LF⟩ : LineBreak) :: lineBreakRefScan text (pos + 1) := by
  conv_lhs => rw [lineBreakRefScan]
  simp only [dif_pos h, hb]
  norm_num

theorem lineBreakRefScan_crlf (text : List Nat) (pos : Nat) (h : pos < text.length)
    (hb10 : ¬ text.getD pos 0 = 10) (hb : text.getD pos 0 = 13)
    (hc : pos + 1 < text.length ∧ text.getD (pos + 1) 0 = 10) :
    lineBreakRefScan text pos =
      (⟨pos + 1, LineBreakKind.CRLF⟩ : LineBreak) :: lineBreakRefScan text (pos + 2) := by
  conv_lhs => rw [lineBreakRefScan]
  simp only [dif_pos h, hb, if_pos hc]
  norm_num

theorem lineBreakRefScan_cr (text : List Nat) (pos : Nat) (h : pos < text.length)
    (hb10 : ¬ text.getD pos 0 = 10) (hb : text.getD pos 0 = 13)
    (hc : ¬ (pos + 1 < text.length ∧ text.getD (pos + 1) 0 = 10)) :
    lineBreakRefScan text pos =
      (⟨pos, LineBreakKind.CR⟩ : LineBreak) :: lineBreakRefScan text (pos + 1) := by
  conv_lhs => rw [lineBreakRefScan]
  simp only [dif_pos h, hb, if_neg hc]
  norm_num

theorem lineBreakRefScan_other (text : List Nat) (pos : Nat) (h : pos < text.length)
    (hb10 : ¬ text.getD pos 0 = 10) (hb13 : ¬ text.getD pos 0 = 13) :
    lineBreakRefScan text pos = lineBreakRefScan text (pos + 1) := by
  conv_lhs => rw [lineBreakRefScan]
  simp only [dif_pos h, if_neg hb10, if_neg hb13]

theorem lineBreakScalarLoop_eq_refSkip (text : List Nat) :
    ∀ fuel pos flag, text.length ≤ pos + fuel →
      (flag = true → 0 < pos ∧ text.getD (pos - 1) 0 = 13) →
      lineBreakScalarLoop text fuel pos flag = lineBreakRefSkip text pos flag := by
  intro fuel
  induction fuel with
  | zero =>
    intro pos flag hle _
    have hnp : ¬ pos < text.length := by omega
    simp only [lineBreakScalarLoop]
    rw [lineBreakRefSkip_noskip text pos flag (fun hc => hnp hc.1),
      lineBreakRefScan_stop text pos hnp]
  | succ fuel ih =>
    intro pos flag hinvle hinv
    simp only [lineBreakScalarLoop]
    by_cases hp : pos < text.length
    · rw [if_pos hp]
      by_cases hb10 : text.getD pos 0 = 10
      · rw [if_pos hb10]
        by_cases hskip : pos > 0 ∧ text.getD (pos - 1) 0 = 13 ∧ flag = true
        · rw [if_pos hskip]
          rw [ih (pos + 1) false (by omega) (fun hc => absurd hc Bool.false_ne_true)]
          rw [lineBreakRefSkip_false, hskip.2.2, lineBreakRefSkip_skip text pos hp hb10]
        · rw [if_neg hskip]
          have hflag : flag = false := by
            cases flag
            · rfl
            · exact absurd ⟨(hinv rfl).1, (hinv rfl).2, rfl⟩ hskip
          subst hflag
          rw [ih (pos + 1) false (by omega) (fun hc => absurd hc Bool.false_ne_true)]
          rw [lineBreakRefSkip_false, lineBreakRefSkip_false,
            lineBreakRefScan_nl text pos hp hb10]
      · rw [if_neg hb10]
        have hnoskip : ¬ (pos < text.length ∧ text.getD pos 0 = 10) :=
          fun hc => hb10 hc.2
        by_cases hb13 : text.getD pos 0 = 13
        · rw [if_pos hb13]
          by_cases hcrlf : pos + 1 < text.length ∧ text.getD (pos + 1) 0 = 10
          · rw [if_pos hcrlf]
            rw [ih (pos + 2) false (by omega) (fun hc => absurd hc Bool.false_ne_true)]
            rw [lineBreakRefSkip_false, lineBreakRefSkip_noskip text pos flag hnoskip,
              lineBreakRefScan_crlf text pos hp hb10 hb13 hcrlf]
          · rw [if_neg hcrlf]
            rw [ih (pos + 1) false (by omega) (fun hc => absurd hc Bool.false_ne_true)]
            rw [lineBreakRefSkip_false, lineBreakRefSkip_noskip text pos flag hnoskip,
              lineBreakRefScan_cr text pos hp hb10 hb13 hcrlf]
        · rw [if_neg hb13]
          rw [ih (pos + 1) false (by omega) (fun hc => absurd hc Bool.false_ne_true)]
          rw [lineBreakRefSkip_false, lineBreakRefSkip_noskip text pos flag hnoskip,
            lineBreakRefScan_other text pos hp hb10 hb13]
    · rw [if_neg hp]
      rw [lineBreakRefSkip_noskip text pos flag (fun hc => hp hc.1),
        lineBreakRefScan_stop text pos hp]

theorem lineBreakChunkLoop_exit (text : List Nat) (base : Nat) :
    ∀ fuel i flag, 16 ≤ i → lineBreakChunkLoop text base fuel i flag = [] := by
  intro fuel i flag h
  cases fuel with
  | zero => rfl
  | succ fuel => exact if_neg (by omega)

theorem lineBreakChunkBoundary (text : List Nat) (base : Nat)
    (h16 : ¬ (text.getD (base + 15) 0 = 13 ∧ text.getD (base + 16) 0 = 10)) :
    lineBreakRefSkip text (base + 16) (decide (text.getD (base + 15) 0 = 13)) =
      lineBreakRefScan text (base + 16) := by
  by_cases hcr : text.getD (base + 15) 0 = 13
  · exact lineBreakRefSkip_noskip text (base + 16) _ (fun hc => h16 ⟨hcr, hc.2⟩)
  · rw [decide_eq_false hcr]
    exact lineBreakRefSkip_false text (base + 16)

theorem lineBreakChunkLoop_eq_pos (text : List Nat) (base : Nat)
    (hbase : base + 16 ≤ text.length) :
    ∀ fuel i flag, 16 ≤ i + fuel → 1 ≤ i → i ≤ 16 →
      (i = 16 → ¬ (text.getD (base + 15) 0 = 13 ∧ text.getD (base + 16) 0 = 10)) →
      lineBreakChunkLoop text base fuel i flag ++
          lineBreakRefSkip text (base + 16) (decide (text.getD (base + 15) 0 = 13)) =
        lineBreakRefScan text (base + i) := by
  intro fuel
  induction fuel with
  | zero =>
    intro i flag hle hge1 hle16 h16
    have hi : i = 16 := by omega
    subst hi
    rw [lineBreakChunkLoop_exit text base 0 16 flag (by omega), List.nil_append]
    exact lineBreakChunkBoundary text base (h16 rfl)
  | succ fuel ih =>
    intro i flag hle hge1 hle16 h16
    by_cases hi16 : i < 16
    · simp only [lineBreakChunkLoop, if_pos hi16]
      have hplen : base + i < text.length := by omega
      by_cases hb10 : text.getD (base + i) 0 = 10
      · rw [if_pos hb10, if_neg (by omega : ¬ (i = 0 ∧ flag = true)), List.cons_append]
        rw [ih (i + 1) flag (by omega) (by omega) (by omega) ?hnext1]
        case hnext1 =>
          intro hi15 hcon
          rw [show i = 15 by omega] at hb10
          rw [hcon.1] at hb10
          exact absurd hb10 (by omega)
        rw [lineBreakRefScan_nl text (base + i) hplen hb10]
        rw [show base + (i + 1) = base + i + 1 by omega]
      · rw [if_neg hb10]
        by_cases hb13 : text.getD (base + i) 0 = 13
        · rw [if_pos hb13]
          by_cases hcrlf : base + i + 1 < text.length ∧ text.getD (base + i + 1) 0 = 10
          · rw [if_pos hcrlf]
            by_cases hi15 : i = 15
            · subst hi15
              rw [lineBreakChunkLoop_exit text base fuel 17 flag (by omega)]
              rw [List.cons_append, List.nil_append]
              rw [decide_eq_true hb13]
              rw [lineBreakRefSkip_skip text (base + 16) (by omega)
                (by rw [show base + 16 = base + 15 + 1 by omega]; exact hcrlf.2)]
              rw [lineBreakRefScan_crlf text (base + 15) hplen hb10 hb13 hcrlf]
            · rw [List.cons_append]
              rw [ih (i + 2) flag (by omega) (by omega) (by omega) ?hnext2]
              case hnext2 =>
                intro hi14 hcon
                rw [show i = 14 by omega] at hcrlf
                rw [show base + 14 + 1 = base + 15 by omega] at hcrlf
                rw [hcon.1] at hcrlf
                exact absurd hcrlf.2 (by omega)
              rw [lineBreakRefScan_crlf text (base + i) hplen hb10 hb13 hcrlf]
              rw [show base + (i + 2) = base + i + 2 by omega]
          · rw [if_neg hcrlf, List.cons_append]
            rw [ih (i + 1) flag (by omega) (by omega) (by omega) ?hnext3]
            case hnext3 =>
              intro hi15 hcon
              rw [show i = 15 by omega] at hcrlf
              by_cases hlen : base + 15 + 1 < text.length
              · refine hcrlf ⟨hlen, ?_⟩
                rw [show base + 15 + 1 = base + 16 by omega]
                exact hcon.2
              · have hdef : text.getD (base + 16) 0 = 0 :=
                  List.getD_eq_default text 0 (by omega)
                rw [hdef] at hcon
                exact absurd hcon.2 (by omega)
            rw [lineBreakRefScan_cr text (base + i) hplen hb10 hb13 hcrlf]
            rw [show base + (i + 1) = base + i + 1 by omega]
        · rw [if_neg hb13]
          rw [ih (i + 1) flag (by omega) (by omega) (by omega) ?hnext4]
          case hnext4 =>
            intro hi15 hcon
            rw [show i = 15 by omega] at hb13
            exact hb13 hcon.1
          rw [lineBreakRefScan_other text (base + i) hplen hb10 hb13]
          rw [show base + (i + 1) = base + i + 1 by omega]
    · have hi : i = 16 := by omega
      subst hi
      rw [lineBreakChunkLoop_exit text base (fuel + 1) 16 flag (by omega), List.nil_append]
      exact lineBreakChunkBoundary text base (h16 rfl)

theorem lineBreakChunkLoop_unfold (text : List Nat) (base fuel i : Nat) (flag : Bool)
    (hf : 0 < fuel) (h : i < 16) :
    lineBreakChunkLoop text base fuel i flag =
      (let p := base + i
      let b := text.getD p 0
      if b = 10 then
        if i = 0 ∧ flag then lineBreakChunkLoop text base (fuel - 1) (i + 1) false
        else
          let kind := if p > 0 ∧ text.getD (p - 1) 0 = 13 then LineBreakKind.CRLF
            else LineBreakKind.LF
          ⟨p, kind⟩ :: lineBreakChunkLoop text base (fuel - 1) (i + 1) flag
      else if b = 13 then
        if p + 1 < text.length ∧ text.getD (p + 1) 0 = 10 then
          ⟨p + 1, LineBreakKind.CRLF⟩ :: lineBreakChunkLoop text base (fuel - 1) (i + 2) flag
        else
          ⟨p, LineBreakKind.CR⟩ :: lineBreakChunkLoop text base (fuel - 1) (i + 1) flag
      else lineBreakChunkLoop text base (fuel - 1) (i + 1) flag) := by
  obtain ⟨f, rfl⟩ : ∃ f, fuel = f + 1 := ⟨fuel - 1, by omega⟩
  simp only [lineBreakChunkLoop, if_pos h, Nat.add_sub_cancel]

theorem lineBreakChunkLoop_eq_zero (text : List Nat) (base : Nat)
    (hbase : base + 16 ≤ text.length) (flag : Bool)
    (hinv : flag = true → 0 < base ∧ text.getD (base - 1) 0 = 13) :
    lineBreakChunkLoop text base 16 0 flag ++
        lineBreakRefSkip text (base + 16) (decide (text.getD (base + 15) 0 = 13)) =
      lineBreakRefSkip text base flag := by
  have h0 : base + 0 = base := Nat.add_zero base
  rw [lineBreakChunkLoop_unfold text base 16 0 flag (by omega) (by omega)]
  simp only [h0]
  have hplen : base < text.length := by omega
  by_cases hb10 : text.getD base 0 = 10
  · rw [if_pos hb10]
    by_cases hflag : flag = true
    · rw [if_pos (by simp [hflag])]
      rw [lineBreakChunkLoop_eq_pos text base hbase 15 1 false (by omega) (by omega)
        (by omega) (fun h => absurd h (by omega))]
      subst hflag
      rw [lineBreakRefSkip_skip text base hplen hb10]
    · have hflagf : flag = false := by
        cases flag
        · rfl
        · exact absurd rfl hflag
      subst hflagf
      rw [if_neg (by simp), List.cons_append]
      rw [lineBreakChunkLoop_eq_pos text base hbase 15 1 false (by omega) (by omega)
        (by omega) (fun h => absurd h (by omega))]
      rw [lineBreakRefSkip_false]
      rw [lineBreakRefScan_nl text base hplen hb10]
  · rw [if_neg hb10]
    rw [lineBreakRefSkip_noskip text base flag (fun hc => hb10 hc.2)]
    by_cases hb13 : text.getD base 0 = 13
    · rw [if_pos hb13]
      by_cases hcrlf : base + 1 < text.length ∧ text.getD (base + 1) 0 = 10
      · rw [if_pos hcrlf, List.cons_append]
        rw [lineBreakChunkLoop_eq_pos text base hbase 15 2 flag (by omega) (by omega)
          (by omega) (fun h => absurd h (by omega))]
        rw [lineBreakRefScan_crlf text base hplen hb10 hb13 hcrlf]
      · rw [if_neg hcrlf, List.cons_append]
        rw [lineBreakChunkLoop_eq_pos text base hbase 15 1 flag (by omega) (by omega)
          (by omega) (fun h => absurd h (by omega))]
        rw [lineBreakRefScan_cr text base hplen hb10 hb13 hcrlf]
    · rw [if_neg hb13]
      rw [lineBreakChunkLoop_eq_pos text base hbase 15 1 flag (by omega) (by omega)
        (by omega) (fun h => absurd h (by omega))]
      rw [lineBreakRefScan_other text base hplen hb10 hb13]

theorem chunkHasNLorCR_true_of (text : List Nat) (pos j : Nat) (hj : j < 16)
    (h : text.getD (pos + j) 0 = 10 ∨ text.getD (pos + j) 0 = 13) :
    chunkHasNLorCR text pos = true := by
  unfold chunkHasNLorCR
  rw [List.any_eq_true]
  refine ⟨j, List.mem_range.2 hj, ?_⟩
  rcases h with h | h
  · rw [h]; simp
  · rw [h]; simp

theorem chunkHasNLorCR_false (text : List Nat) (pos : Nat)
    (h : chunkHasNLorCR text pos = false) :
    ∀ j, j < 16 → ¬ text.getD (pos + j) 0 = 10 ∧ ¬ text.getD (pos + j) 0 = 13 := by
  intro j hj
  constructor
  · intro hc
    rw [chunkHasNLorCR_true_of text pos j hj (Or.inl hc)] at h
    exact absurd h (by simp)
  · intro hc
    rw [chunkHasNLorCR_true_of text pos j hj (Or.inr hc)] at h
    exact absurd h (by simp)

theorem lineBreakRefScan_advance (text : List Nat) :
    ∀ n p, p + n ≤ text.length →
      (∀ j, j < n → ¬ text.getD (p + j) 0 = 10 ∧ ¬ text.getD (p + j) 0 = 13) →
      lineBreakRefScan text p = lineBreakRefScan text (p + n) := by
  intro n
  induction n with
  | zero => intro p _ _; rfl
  | succ n ih =>
    intro p hle hno
    have h0 := hno 0 (by omega)
    rw [Nat.add_zero] at h0
    rw [lineBreakRefScan_other text p (by omega) h0.1 h0.2]
    rw [ih (p + 1) (by omega) (fun j hj => by
      have := hno (j + 1) (by omega)
      rw [show p + (j + 1) = p + 1 + j by omega] at this
      exact this)]
    rw [show p + 1 + n = p + (n + 1) by omega]

theorem lineBreakVecLoop_eq (text : List Nat) :
    ∀ fuel pos flag, (flag = true → 0 < pos ∧ text.getD (pos - 1) 0 = 13) →
      lineBreakVecLoop text fuel pos flag = lineBreakRefSkip text pos flag := by
  intro fuel
  induction fuel with
  | zero =>
    intro pos flag hinv
    exact lineBreakScalarLoop_eq_refSkip text text.length pos flag (by omega) hinv
  | succ fuel ih =>
    intro pos flag hinv
    simp only [lineBreakVecLoop]
    by_cases hp : pos + 16 ≤ text.length
    · rw [if_pos hp]
      by_cases hmatch : chunkHasNLorCR text pos
      · rw [if_pos hmatch]
        rw [ih (pos + 16) (decide (text.getD (pos + 15) 0 = 13)) (fun hd =>
          ⟨by omega, by
            rw [show pos + 16 - 1 = pos + 15 by omega]
            exact of_decide_eq_true hd⟩)]
        exact lineBreakChunkLoop_eq_zero text pos hp flag hinv
      · rw [if_neg hmatch]
        rw [ih (pos + 16) false (fun hd => absurd hd Bool.false_ne_true)]
        rw [lineBreakRefSkip_false]
        have hno := chunkHasNLorCR_false text pos (Bool.not_eq_true _ ▸ eq_false_of_ne_true hmatch)
        rw [← lineBreakRefScan_advance text 16 pos hp hno]
        have h00 := hno 0 (by omega)
        rw [Nat.add_zero] at h00
        exact (lineBreakRefSkip_noskip text pos flag (fun hc => h00.1 hc.2)).symm ▸ rfl
    · rw [if_neg hp]
      exact lineBreakScalarLoop_eq_refSkip text text.length pos flag (by omega) hinv

theorem lineBreakClassify_pos (text : List Nat) (p : Nat) (lb : LineBreak)
    (h : lineBreakClassify text p = some lb) : lb.pos = p := by
  unfold lineBreakClassify at h
  by_cases hb10 : text.getD p 0 = 10
  · rw [if_pos hb10] at h
    by_cases hcr : p > 0 ∧ text.getD (p - 1) 0 = 13
    · rw [if_pos hcr] at h
      cases h
      rfl
    · rw [if_neg hcr] at h
      cases h
      rfl
  · rw [if_neg hb10] at h
    by_cases hb13 : text.getD p 0 = 13
    · rw [if_pos hb13] at h
      by_cases hcrlf : p + 1 < text.length ∧ text.getD (p + 1) 0 = 10
      · rw [if_pos hcrlf] at h
        cases h
      · rw [if_neg hcrlf] at h
        cases h
        rfl
    · rw [if_neg hb13] at h
      cases h

theorem lineBreakRefScan_eq_filterMap (text : List Nat) :
    ∀ n p, text.length ≤ p + n →
      lineBreakRefScan text p =
        (List.range' p n).filterMap (lineBreakClassify text) := by
  intro n
  induction n using Nat.strong_induction_on with
  | _ n ih =>
    intro p hle
    match n, hle with
    | 0, hle =>
      rw [lineBreakRefScan_stop text p (by omega)]
      rfl
    | n + 1, hle =>
      rw [List.range'_succ]
      by_cases hp : p < text.length
      · by_cases hb10 : text.getD p 0 = 10
        · have hcl : lineBreakClassify text p =
              some ⟨p, if p > 0 ∧ text.getD (p - 1) 0 = 13 then LineBreakKind.CRLF
                else LineBreakKind.LF⟩ := by
            unfold lineBreakClassify
            rw [if_pos hb10]
            by_cases hcr : p > 0 ∧ text.getD (p - 1) 0 = 13
            · rw [if_pos hcr, if_pos hcr]
            · rw [if_neg hcr, if_neg hcr]
          rw [List.filterMap_cons_some hcl, lineBreakRefScan_nl text p hp hb10,
            ih n (by omega) (p + 1) (by omega)]
        · by_cases hb13 : text.getD p 0 = 13
          · by_cases hcrlf : p + 1 < text.length ∧ text.getD (p + 1) 0 = 10
            · -- CRLF: classify p = none, classify (p+1) = CRLF at p+1
              obtain ⟨m, hm⟩ : ∃ m, n = m + 1 := ⟨n - 1, by omega⟩
              subst hm
              have hclp : lineBreakClassify text p = none := by
                unfold lineBreakClassify
                rw [if_neg hb10, if_pos hb13]
                exact if_pos hcrlf
              have hclp1 : lineBreakClassify text (p + 1) =
                  some ⟨p + 1, LineBreakKind.CRLF⟩ := by
                unfold lineBreakClassify
                rw [if_pos hcrlf.2, if_pos ⟨by omega, by
                  rw [show p + 1 - 1 = p by omega]; exact hb13⟩]
              rw [List.filterMap_cons_none hclp, List.range'_succ,
                List.filterMap_cons_some hclp1]
              rw [lineBreakRefScan_crlf text p hp hb10 hb13 hcrlf]
              rw [ih m (by omega) (p + 2) (by omega)]
            · have hclp : lineBreakClassify text p = some ⟨p, LineBreakKind.CR⟩ := by
                unfold lineBreakClassify
                rw [if_neg hb10, if_pos hb13]
                exact if_neg hcrlf
              rw [List.filterMap_cons_some hclp,
                lineBreakRefScan_cr text p hp hb10 hb13 hcrlf,
                ih n (by omega) (p + 1) (by omega)]
          · have hclp : lineBreakClassify text p = none := by
              unfold lineBreakClassify
              rw [if_neg hb10, if_neg hb13]
            rw [List.filterMap_cons_none hclp,
              lineBreakRefScan_other text p hp hb10 hb13,
              ih n (by omega) (p + 1) (by omega)]
      · have hdef : text.getD p 0 = 0 := List.getD_eq_default text 0 (by omega)
        have hclp : lineBreakClassify text p = none := by
          unfold lineBreakClassify
          rw [hdef]
          norm_num
        rw [List.filterMap_cons_none hclp, lineBreakRefScan_stop text p hp,
          ← ih n (by omega) (p + 1) (by omega),
          lineBreakRefScan_stop text (p + 1) (by omega)]

/-- C4: `find_line_breaks` reports exactly the per-position classification
(each CRLF once, at the index of the `\n`, also across 16-byte chunk
boundaries; lone `\r` as CR, lone `\n` as LF), and the reported positions
are strictly increasing, so no position is reported twice. -/
theorem findLineBreaks_correct :
    (∀ text : List Nat, findLineBreaks text = lineBreakSpec text) ∧
    (∀ text : List Nat,
      List.Pairwise (fun a b => a.pos < b.pos) (findLineBreaks text)) := by
  have hmain : ∀ text : List Nat, findLineBreaks text = lineBreakSpec text := by
    intro text
    unfold findLineBreaks lineBreakSpec
    rw [lineBreakVecLoop_eq text text.length 0 false
      (fun hd => absurd hd Bool.false_ne_true)]
    rw [lineBreakRefSkip_false]
    rw [lineBreakRefScan_eq_filterMap text text.length 0 (by omega)]
    rw [List.range_eq_range']
  refine ⟨hmain, fun text => ?_⟩
  rw [hmain text]
  unfold lineBreakSpec
  rw [List.pairwise_filterMap]
  have hlt : List.Pairwise (· < ·) (List.range text.length) := List.pairwise_lt_range _
  refine hlt.imp ?_
  intro a b hab
  intro x hx y hy
  rw [lineBreakClassify_pos text a x hx, lineBreakClassify_pos text b y hy]
  exact hab

/-! ## Claim C5: `decodeUtf8Unchecked` vs. UTF-8 validity -/

theorem lor_two_pow_mul_add (k x y : Nat) (h : y < 2 ^ k) :
    (2 ^ k * x) ||| y = 2 ^ k * x + y := by
  apply Nat.eq_of_testBit_eq
  intro j
  rw [Nat.testBit_or, Nat.testBit_mul_pow_two_add x h j]
  by_cases hjk : j < k
  · rw [if_pos hjk]
    have hx : (2 ^ k * x).testBit j = false := by
      rw [Nat.mul_comm, ← Nat.shiftLeft_eq, Nat.testBit_shiftLeft]
      have hnot : ¬ j ≥ k := by omega
      simp [hnot]
    rw [hx, Bool.false_or]
  · rw [if_neg hjk]
    have hy : y.testBit j = false :=
      Nat.testBit_lt_two_pow (lt_of_lt_of_le h (Nat.pow_le_pow_right (by omega) (by omega)))
    rw [hy, Bool.or_false]
    rw [Nat.mul_comm, ← Nat.shiftLeft_eq, Nat.testBit_shiftLeft]
    have hge : j ≥ k := by omega
    simp [hge]

set_option maxRecDepth 8192 in
theorem mask_lead2 : ∀ b, b < 256 → 194 ≤ b → b ≤ 223 →
    b &&& 0xE0 = 0xC0 ∧ b &&& 0x1F = b - 192 := by decide

set_option maxRecDepth 8192 in
theorem mask_lead3 : ∀ b, b < 256 → 224 ≤ b → b ≤ 239 →
    ¬ b &&& 0xE0 = 0xC0 ∧ b &&& 0xF0 = 0xE0 ∧ b &&& 0x0F = b - 224 := by decide

set_option maxRecDepth 8192 in
theorem mask_lead4 : ∀ b, b < 256 → 240 ≤ b → b ≤ 244 →
    ¬ b &&& 0xE0 = 0xC0 ∧ ¬ b &&& 0xF0 = 0xE0 ∧ b &&& 0x07 = b - 240 := by decide

set_option maxRecDepth 8192 in
theorem mask_cont : ∀ b, b < 256 → 128 ≤ b → b ≤ 191 → b &&& 0x3F = b - 128 := by decide

/-- A byte in the continuation range `[0x80, 0xBF]`. -/
def IsUtf8Cont (b : Nat) : Prop := 128 ≤ b ∧ b ≤ 191

/-- The bytes of `text` starting at `pos` form a well-formed UTF-8 encoding
of the Unicode scalar value `cp` occupying `L` bytes (written from the
UTF-8 standard the specification appeals to: lead-byte ranges, continuation
bytes, no overlong forms, no surrogates, maximum U+10FFFF). -/
def Utf8EncodesAt (text : List Nat) (pos cp L : Nat) : Prop :=
  (L = 1 ∧ pos < text.length ∧ text.getD pos 0 < 128 ∧ cp = text.getD pos 0) ∨
  (L = 2 ∧ pos + 1 < text.length ∧
    194 ≤ text.getD pos 0 ∧ text.getD pos 0 ≤ 223 ∧
    IsUtf8Cont (text.getD (pos + 1) 0) ∧
    cp = (text.getD pos 0 - 192) * 64 + (text.getD (pos + 1) 0 - 128)) ∨
  (L = 3 ∧ pos + 2 < text.length ∧
    224 ≤ text.getD pos 0 ∧ text.getD pos 0 ≤ 239 ∧
    IsUtf8Cont (text.getD (pos + 1) 0) ∧ IsUtf8Cont (text.getD (pos + 2) 0) ∧
    cp = (text.getD pos 0 - 224) * 4096 + (text.getD (pos + 1) 0 - 128) * 64 +
      (text.getD (pos + 2) 0 - 128) ∧
    2048 ≤ cp ∧ ¬ (55296 ≤ cp ∧ cp ≤ 57343)) ∨
  (L = 4 ∧ pos + 3 < text.length ∧
    240 ≤ text.getD pos 0 ∧ text.getD pos 0 ≤ 244 ∧
    IsUtf8Cont (text.getD (pos + 1) 0) ∧ IsUtf8Cont (text.getD (pos + 2) 0) ∧
    IsUtf8Cont (text.getD (pos + 3) 0) ∧
    cp = (text.getD pos 0 - 240) * 262144 + (text.getD (pos + 1) 0 - 128) * 4096 +
      (text.getD (pos + 2) 0 - 128) * 64 + (text.getD (pos + 3) 0 - 128) ∧
    65536 ≤ cp ∧ cp ≤ 1114111)

/-- The byte count announced by a UTF-8 lead byte (`none` for ASCII bytes
and bytes that are not valid lead bytes), classified exactly by the bit
masks the decoder tests. -/
def utf8LeadLen (b : Nat) : Option Nat :=
  if b &&& 0xE0 = 0xC0 then some 2
  else if b &&& 0xF0 = 0xE0 then some 3
  else if b &&& 0xF8 = 0xF0 then some 4
  else none

theorem decodeUtf8_valid (text : List Nat) (pos cp L : Nat)
    (h : Utf8EncodesAt text pos cp L) :
    decodeUtf8Unchecked text pos = ⟨cp, L⟩ := by
  rcases h with ⟨hL, hlen, hb0, hcp⟩ | ⟨hL, hlen, hb0lo, hb0hi, hc1, hcp⟩ |
    ⟨hL, hlen, hb0lo, hb0hi, hc1, hc2, hcp, _, _⟩ |
    ⟨hL, hlen, hb0lo, hb0hi, hc1, hc2, hc3, hcp, _, _⟩
  · subst hL
    simp only [decodeUtf8Unchecked]
    rw [if_pos hb0, hcp]
  · subst hL
    obtain ⟨hm1, hm2⟩ := mask_lead2 (text.getD pos 0) (by omega) hb0lo hb0hi
    simp only [decodeUtf8Unchecked]
    rw [if_neg (by omega), if_neg (by omega), if_pos hm1]
    have hy := mask_cont (text.getD (pos + 1) 0) (by
      rcases hc1 with ⟨_, h2⟩; omega) hc1.1 hc1.2
    rw [hm2, hy, Nat.shiftLeft_eq]
    have h64 : (2 : Nat) ^ 6 = 64 := by norm_num
    rw [show (text.getD pos 0 - 192) * 2 ^ 6 = 2 ^ 6 * (text.getD pos 0 - 192) by ring]
    rw [lor_two_pow_mul_add 6 _ _ (by rcases hc1 with ⟨h1, h2⟩; omega)]
    rw [hcp, DecodeResult.mk.injEq]
    exact ⟨by ring, rfl⟩
  · subst hL
    obtain ⟨hm1, hm2, hm3⟩ := mask_lead3 (text.getD pos 0) (by omega) hb0lo hb0hi
    simp only [decodeUtf8Unchecked]
    rw [if_neg (by omega), if_neg (by omega), if_neg hm1, if_neg (by omega), if_pos hm2]
    have hy1 := mask_cont (text.getD (pos + 1) 0) (by rcases hc1 with ⟨_, h⟩; omega) hc1.1 hc1.2
    have hy2 := mask_cont (text.getD (pos + 2) 0) (by rcases hc2 with ⟨_, h⟩; omega) hc2.1 hc2.2
    rw [hm3, hy1, hy2, Nat.shiftLeft_eq, Nat.shiftLeft_eq]
    rw [show (text.getD pos 0 - 224) * 2 ^ 12 = 2 ^ 12 * (text.getD pos 0 - 224) by ring]
    rw [lor_two_pow_mul_add 12 _ _ (by
      obtain ⟨h1, h2⟩ := hc1
      rw [show (2 : Nat) ^ 6 = 64 from by norm_num, show (2 : Nat) ^ 12 = 4096 from by norm_num]
      omega)]
    rw [show 2 ^ 12 * (text.getD pos 0 - 224) + (text.getD (pos + 1) 0 - 128) * 2 ^ 6 =
      2 ^ 6 * (2 ^ 6 * (text.getD pos 0 - 224) + (text.getD (pos + 1) 0 - 128)) by ring]
    rw [lor_two_pow_mul_add 6 _ _ (by rcases hc2 with ⟨h1, h2⟩; omega)]
    rw [hcp, DecodeResult.mk.injEq]
    exact ⟨by ring, rfl⟩
  · subst hL
    obtain ⟨hm1, hm2, hm3⟩ := mask_lead4 (text.getD pos 0) (by omega) hb0lo hb0hi
    simp only [decodeUtf8Unchecked]
    rw [if_neg (by omega), if_neg (by omega), if_neg hm1, if_neg (by omega), if_neg hm2,
      if_neg (by omega)]
    have hy1 := mask_cont (text.getD (pos + 1) 0) (by rcases hc1 with ⟨_, h⟩; omega) hc1.1 hc1.2
    have hy2 := mask_cont (text.getD (pos + 2) 0) (by rcases hc2 with ⟨_, h⟩; omega) hc2.1 hc2.2
    have hy3 := mask_cont (text.getD (pos + 3) 0) (by rcases hc3 with ⟨_, h⟩; omega) hc3.1 hc3.2
    rw [hm3, hy1, hy2, hy3, Nat.shiftLeft_eq, Nat.shiftLeft_eq, Nat.shiftLeft_eq]
    rw [show (text.getD pos 0 - 240) * 2 ^ 18 = 2 ^ 18 * (text.getD pos 0 - 240) by ring]
    rw [lor_two_pow_mul_add 18 _ _ (by
      obtain ⟨h1, h2⟩ := hc1
      rw [show (2 : Nat) ^ 12 = 4096 from by norm_num,
        show (2 : Nat) ^ 18 = 262144 from by norm_num]
      omega)]
    rw [show 2 ^ 18 * (text.getD pos 0 - 240) + (text.getD (pos + 1) 0 - 128) * 2 ^ 12 =
      2 ^ 12 * (2 ^ 6 * (text.getD pos 0 - 240) + (text.getD (pos + 1) 0 - 128)) by ring]
    rw [lor_two_pow_mul_add 12 _ _ (by
      obtain ⟨h1, h2⟩ := hc2
      rw [show (2 : Nat) ^ 6 = 64 from by norm_num, show (2 : Nat) ^ 12 = 4096 from by norm_num]
      omega)]
    rw [show 2 ^ 12 * (2 ^ 6 * (text.getD pos 0 - 240) + (text.getD (pos + 1) 0 - 128)) +
        (text.getD (pos + 2) 0 - 128) * 2 ^ 6 =
      2 ^ 6 * (2 ^ 6 * (2 ^ 6 * (text.getD pos 0 - 240) + (text.getD (pos + 1) 0 - 128)) +
        (text.getD (pos + 2) 0 - 128)) by ring]
    rw [lor_two_pow_mul_add 6 _ _ (by rcases hc3 with ⟨h1, h2⟩; omega)]
    rw [hcp, DecodeResult.mk.injEq]
    exact ⟨by ring, rfl⟩

set_option maxRecDepth 4096 in
theorem small_byte_not_lead : ∀ b, b < 128 →
    ¬ b &&& 0xE0 = 0xC0 ∧ ¬ b &&& 0xF0 = 0xE0 ∧ ¬ b &&& 0xF8 = 0xF0 := by decide

theorem decodeUtf8_truncated (text : List Nat) (pos k : Nat) (hpos : pos < text.length)
    (hlead : utf8LeadLen (text.getD pos 0) = some k) (htrunc : text.length < pos + k) :
    decodeUtf8Unchecked text pos = ⟨0xFFFD, 1⟩ := by
  have hnb : ¬ text.getD pos 0 < 128 := by
    intro hsmall
    obtain ⟨h1, h2, h3⟩ := small_byte_not_lead (text.getD pos 0) hsmall
    unfold utf8LeadLen at hlead
    rw [if_neg h1, if_neg h2, if_neg h3] at hlead
    cases hlead
  unfold utf8LeadLen at hlead
  by_cases hm1 : text.getD pos 0 &&& 0xE0 = 0xC0
  · rw [if_pos hm1] at hlead
    cases hlead
    simp only [decodeUtf8Unchecked]
    rw [if_neg hnb, if_pos (by omega)]
  · rw [if_neg hm1] at hlead
    by_cases hm2 : text.getD pos 0 &&& 0xF0 = 0xE0
    · rw [if_pos hm2] at hlead
      cases hlead
      simp only [decodeUtf8Unchecked]
      rw [if_neg hnb]
      by_cases hp1 : pos + 1 ≥ text.length
      · rw [if_pos hp1]
      · rw [if_neg hp1, if_neg hm1, if_pos (by omega)]
    · rw [if_neg hm2] at hlead
      by_cases hm3 : text.getD pos 0 &&& 0xF8 = 0xF0
      · rw [if_pos hm3] at hlead
        cases hlead
        simp only [decodeUtf8Unchecked]
        rw [if_neg hnb]
        by_cases hp1 : pos + 1 ≥ text.length
        · rw [if_pos hp1]
        · rw [if_neg hp1, if_neg hm1]
          by_cases hp2 : pos + 2 ≥ text.length
          · rw [if_pos hp2]
          · rw [if_neg hp2, if_neg hm2, if_pos (by omega)]
      · rw [if_neg hm3] at hlead
        cases hlead

/-- C5, counterexample: the invalid two-byte sequence `C0 20` (an overlong
lead byte followed by a non-continuation byte) does not decode to U+FFFD:
`decode_utf8_unchecked` returns codepoint 0x20 with length 2. -/
theorem decodeUtf8_invalid_not_replaced :
    decodeUtf8Unchecked [0xC0, 0x20] 0 = ⟨0x20, 2⟩ ∧
    (∀ cp L, ¬ Utf8EncodesAt [0xC0, 0x20] 0 cp L) ∧ (0x20 : Nat) ≠ 0xFFFD := by
  refine ⟨by decide, ?_, by decide⟩
  intro cp L h
  rcases h with ⟨_, _, hb, _⟩ | ⟨_, _, hb, _⟩ | ⟨_, _, hb, _⟩ | ⟨_, _, hb, _⟩
  · exact absurd hb (by decide)
  · exact absurd hb (by decide)
  · exact absurd hb (by decide)
  · exact absurd hb (by decide)

/-- C5 (amended): `decode_utf8_unchecked` decodes every well-formed UTF-8
sequence to its scalar value and length, and returns `(U+FFFD, 1)` whenever
a multi-byte lead byte announces more bytes than remain in the slice; other
invalid sequences are not detected (the decoder assumes valid input). -/
theorem decodeUtf8Unchecked_spec :
    (∀ text pos k, pos < text.length → utf8LeadLen (text.getD pos 0) = some k →
      text.length < pos + k → decodeUtf8Unchecked text pos = ⟨0xFFFD, 1⟩) ∧
    (∀ text pos cp L, Utf8EncodesAt text pos cp L →
      decodeUtf8Unchecked text pos = ⟨cp, L⟩) :=
  ⟨decodeUtf8_truncated, decodeUtf8_valid⟩

/-- Witness for C5: a truncated three-byte sequence (the first two bytes of
the euro sign) decodes to `(U+FFFD, 1)`, and the valid encoding `C3 A9` of
U+00E9 decodes to `(0xE9, 2)`. -/
theorem decodeUtf8Unchecked_spec_witness :
    decodeUtf8Unchecked [0xE2, 0x82] 0 = ⟨0xFFFD, 1⟩ ∧
    decodeUtf8Unchecked [0xC3, 0xA9] 0 = ⟨0xE9, 2⟩ :=
  ⟨decodeUtf8Unchecked_spec.1 [0xE2, 0x82] 0 3 (by decide) (by decide) (by decide),
   decodeUtf8Unchecked_spec.2 [0xC3, 0xA9] 0 0xE9 2 (by
     unfold Utf8EncodesAt IsUtf8Cont
     decide)⟩

/-! ## Claims C9, C10: `TextBufferView` destroyed-view behavior

The TypeScript class `TextBufferView` (text-buffer-view.ts) delegates every
operation to a native library through `this.lib` after a `guard()` check of
the private `_destroyed` flag; `destroy()` flips the flag and releases the
native view.  The native library is abstracted as a structure of pure
functions; the mutable wrapper state is `TextBufferViewState`, with a
counter recording how many times `lib.destroyTextBufferView` has been
invoked. -/

/-- An RGBA color (four float components in the source, abstracted as an
opaque value: no claim depends on the numeric components). -/
abbrev RGBA := Nat

/-- The parallel-array line-info export, abstracted as an opaque value. -/
abbrev LineInfo := Nat

/-- A native pointer (`bun:ffi` `Pointer`). -/
abbrev Pointer := Nat

/-- Wrap modes accepted by `setWrapMode`. -/
inductive WrapMode where
  | none
  | char
  | word
deriving DecidableEq, Repr

/-- The native render library functions used by `TextBufferView`,
abstracted as pure functions (the claims only concern the guard and
destroy logic of the TypeScript wrapper). -/
structure RenderLib where
  textBufferViewSetSelection : Pointer → Nat → Nat → Option RGBA → Option RGBA → Unit
  textBufferViewUpdateSelection : Pointer → Nat → Option RGBA → Option RGBA → Unit
  textBufferViewResetSelection : Pointer → Unit
  textBufferViewGetSelection : Pointer → Option (Nat × Nat)
  textBufferViewSetLocalSelection :
    Pointer → Nat → Nat → Nat → Nat → Option RGBA → Option RGBA → Bool
  textBufferViewUpdateLocalSelection :
    Pointer → Nat → Nat → Nat → Nat → Option RGBA → Option RGBA → Bool
  textBufferViewResetLocalSelection : Pointer → Unit
  textBufferViewSetWrapWidth : Pointer → Nat → Unit
  textBufferViewSetWrapMode : Pointer → WrapMode → Unit
  textBufferViewSetViewportSize : Pointer → Nat → Nat → Unit
  textBufferViewSetViewport : Pointer → Nat → Nat → Nat → Nat → Unit
  textBufferViewGetLineInfo : Pointer → LineInfo
  textBufferViewGetLogicalLineInfo : Pointer → LineInfo
  textBufferViewGetSelectedTextBytes : Pointer → Nat → Option (List Nat)
  textBufferViewGetPlainTextBytes : Pointer → Nat → Option (List Nat)
  textBufferViewSetTabIndicator : Pointer → Nat → Unit
  textBufferViewSetTabIndicatorColor : Pointer → RGBA → Unit
  textBufferViewSetTruncate : Pointer → Bool → Unit
  textBufferViewMeasureForDimensions : Pointer → Nat → Nat → Option (Nat × Nat)
  textBufferViewGetVirtualLineCount : Pointer → Nat
  destroyTextBufferView : Pointer → Unit
  decode : List Nat → String

/-- The wrapper's mutable state: the native pointer, the owning buffer's
current `byteSize`, the `_destroyed` flag, and a count of native destroy
invocations (for stating C10). -/
structure TextBufferViewState where
  viewPtr : Pointer
  byteSize : Nat
  destroyed : Bool
  nativeDestroyCalls : Nat

namespace TextBufferView

/-- `private guard(): if (this._destroyed) throw new Error(...)`. -/
def guard (s : TextBufferViewState) : Except String Unit :=
  if s.destroyed then Except.error "TextBufferView is destroyed" else Except.ok ()

/-- The error every guarded operation throws on a destroyed view. -/
def destroyedError (α : Type) : Except String α :=
  Except.error "TextBufferView is destroyed"

def ptr (s : TextBufferViewState) : Except String Pointer := do
  guard s
  pure s.viewPtr

def setSelection (lib : RenderLib) (s : TextBufferViewState) (start finish : Nat)
    (bgColor fgColor : Option RGBA) : Except String Unit := do
  guard s
  pure (lib.textBufferViewSetSelection s.viewPtr start finish bgColor fgColor)

def updateSelection (lib : RenderLib) (s : TextBufferViewState) (finish : Nat)
    (bgColor fgColor : Option RGBA) : Except String Unit := do
  guard s
  pure (lib.textBufferViewUpdateSelection s.viewPtr finish bgColor fgColor)

def resetSelection (lib : RenderLib) (s : TextBufferViewState) : Except String Unit := do
  guard s
  pure (lib.textBufferViewResetSelection s.viewPtr)

def getSelection (lib : RenderLib) (s : TextBufferViewState) :
    Except String (Option (Nat × Nat)) := do
  guard s
  pure (lib.textBufferViewGetSelection s.viewPtr)

def hasSelection (lib : RenderLib) (s : TextBufferViewState) : Except String Bool := do
  guard s
  let sel ← getSelection lib s
  pure sel.isSome

def setLocalSelection (lib : RenderLib) (s : TextBufferViewState)
    (anchorX anchorY focusX focusY : Nat) (bgColor fgColor : Option RGBA) :
    Except String Bool := do
  guard s
  pure (lib.textBufferViewSetLocalSelection s.viewPtr anchorX anchorY focusX focusY
    bgColor fgColor)

def updateLocalSelection (lib : RenderLib) (s : TextBufferViewState)
    (anchorX anchorY focusX focusY : Nat) (bgColor fgColor : Option RGBA) :
    Except String Bool := do
  guard s
  pure (lib.textBufferViewUpdateLocalSelection s.viewPtr anchorX anchorY focusX focusY
    bgColor fgColor)

def resetLocalSelection (lib : RenderLib) (s : TextBufferViewState) :
    Except String Unit := do
  guard s
  pure (lib.textBufferViewResetLocalSelection s.viewPtr)

def setWrapWidth (lib : RenderLib) (s : TextBufferViewState) (width : Option Nat) :
    Except String Unit := do
  guard s
  pure (lib.textBufferViewSetWrapWidth s.viewPtr (width.getD 0))

def setWrapMode (lib : RenderLib) (s : TextBufferViewState) (mode : WrapMode) :
    Except String Unit := do
  guard s
  pure (lib.textBufferViewSetWrapMode s.viewPtr mode)

def setViewportSize (lib : RenderLib) (s : TextBufferViewState) (width height : Nat) :
    Except String Unit := do
  guard s
  pure (lib.textBufferViewSetViewportSize s.viewPtr width height)

def setViewport (lib : RenderLib) (s : TextBufferViewState) (x y width height : Nat) :
    Except String Unit := do
  guard s
  pure (lib.textBufferViewSetViewport s.viewPtr x y width height)

def lineInfo (lib : RenderLib) (s : TextBufferViewState) : Except String LineInfo := do
  guard s
  pure (lib.textBufferViewGetLineInfo s.viewPtr)

def logicalLineInfo (lib : RenderLib) (s : TextBufferViewState) :
    Except String LineInfo := do
  guard s
  pure (lib.textBufferViewGetLogicalLineInfo s.viewPtr)

def getSelectedText (lib : RenderLib) (s : TextBufferViewState) : Except String String := do
  guard s
  if s.byteSize = 0 then pure ""
  else
    match lib.textBufferViewGetSelectedTextBytes s.viewPtr s.byteSize with
    | Option.none => pure ""
    | Option.some bytes => pure (lib.decode bytes)

def getPlainText (lib : RenderLib) (s : TextBufferViewState) : Except String String := do
  guard s
  if s.byteSize = 0 then pure ""
  else
    match lib.textBufferViewGetPlainTextBytes s.viewPtr s.byteSize with
    | Option.none => pure ""
    | Option.some bytes => pure (lib.decode bytes)

def setTabIndicator (lib : RenderLib) (s : TextBufferViewState)
    (indicator : Sum String Nat) : Except String Unit := do
  guard s
  let codePoint := match indicator with
    | Sum.inl str => ((str.toList.head?).map Char.toNat).getD 0
    | Sum.inr n => n
  pure (lib.textBufferViewSetTabIndicator s.viewPtr codePoint)

def setTabIndicatorColor (lib : RenderLib) (s : TextBufferViewState) (color : RGBA) :
    Except String Unit := do
  guard s
  pure (lib.textBufferViewSetTabIndicatorColor s.viewPtr color)

def setTruncate (lib : RenderLib) (s : TextBufferViewState) (truncate : Bool) :
    Except String Unit := do
  guard s
  pure (lib.textBufferViewSetTruncate s.viewPtr truncate)

def measureForDimensions (lib : RenderLib) (s : TextBufferViewState)
    (width height : Nat) : Except String (Option (Nat × Nat)) := do
  guard s
  pure (lib.textBufferViewMeasureForDimensions s.viewPtr width height)

def getVirtualLineCount (lib : RenderLib) (s : TextBufferViewState) :
    Except String Nat := do
  guard s
  pure (lib.textBufferViewGetVirtualLineCount s.viewPtr)

/-- `destroy()`: early-returns on an already-destroyed view, otherwise sets
the flag and invokes the native destroy exactly once (recorded in the
counter). -/
def destroy (s : TextBufferViewState) : TextBufferViewState :=
  if s.destroyed then s
  else { s with destroyed := true, nativeDestroyCalls := s.nativeDestroyCalls + 1 }

end TextBufferView

/-- C9: after `destroy()`, every public operation of `TextBufferView`
fails loudly with the destroyed-view error — none silently no-ops or
returns data. -/
theorem destroyedView_all_ops_throw (lib : RenderLib) (s : TextBufferViewState)
    (hdes : s.destroyed = true) :
    TextBufferView.ptr s = TextBufferView.destroyedError Pointer ∧
    (∀ a b c d, TextBufferView.setSelection lib s a b c d =
      TextBufferView.destroyedError Unit) ∧
    (∀ a c d, TextBufferView.updateSelection lib s a c d =
      TextBufferView.destroyedError Unit) ∧
    TextBufferView.resetSelection lib s = TextBufferView.destroyedError Unit ∧
    TextBufferView.getSelection lib s =
      TextBufferView.destroyedError (Option (Nat × Nat)) ∧
    TextBufferView.hasSelection lib s = TextBufferView.destroyedError Bool ∧
    (∀ a b c d e f, TextBufferView.setLocalSelection lib s a b c d e f =
      TextBufferView.destroyedError Bool) ∧
    (∀ a b c d e f, TextBufferView.updateLocalSelection lib s a b c d e f =
      TextBufferView.destroyedError Bool) ∧
    TextBufferView.resetLocalSelection lib s = TextBufferView.destroyedError Unit ∧
    (∀ w, TextBufferView.setWrapWidth lib s w = TextBufferView.destroyedError Unit) ∧
    (∀ m, TextBufferView.setWrapMode lib s m = TextBufferView.destroyedError Unit) ∧
    (∀ a b, TextBufferView.setViewportSize lib s a b =
      TextBufferView.destroyedError Unit) ∧
    (∀ a b c d, TextBufferView.setViewport lib s a b c d =
      TextBufferView.destroyedError Unit) ∧
    TextBufferView.lineInfo lib s = TextBufferView.destroyedError LineInfo ∧
    TextBufferView.logicalLineInfo lib s = TextBufferView.destroyedError LineInfo ∧
    TextBufferView.getSelectedText lib s = TextBufferView.destroyedError String ∧
    TextBufferView.getPlainText lib s = TextBufferView.destroyedError String ∧
    (∀ i, TextBufferView.setTabIndicator lib s i = TextBufferView.destroyedError Unit) ∧
    (∀ c, TextBufferView.setTabIndicatorColor lib s c =
      TextBufferView.destroyedError Unit) ∧
    (∀ t, TextBufferView.setTruncate lib s t = TextBufferView.destroyedError Unit) ∧
    (∀ a b, TextBufferView.measureForDimensions lib s a b =
      TextBufferView.destroyedError (Option (Nat × Nat))) ∧
    TextBufferView.getVirtualLineCount lib s = TextBufferView.destroyedError Nat := by
  have hg : TextBufferView.guard s = Except.error "TextBufferView is destroyed" := by
    unfold TextBufferView.guard
    rw [if_pos hdes]
  refine ⟨?_, fun a b c d => ?_, fun a c d => ?_, ?_, ?_, ?_, fun a b c d e f => ?_,
    fun a b c d e f => ?_, ?_, fun w => ?_, fun m => ?_, fun a b => ?_,
    fun a b c d => ?_, ?_, ?_, ?_, ?_, fun i => ?_, fun c => ?_, fun t => ?_,
    fun a b => ?_, ?_⟩
  · unfold TextBufferView.ptr; rw [hg]; rfl
  · unfold TextBufferView.setSelection; rw [hg]; rfl
  · unfold TextBufferView.updateSelection; rw [hg]; rfl
  · unfold TextBufferView.resetSelection; rw [hg]; rfl
  · unfold TextBufferView.getSelection; rw [hg]; rfl
  · unfold TextBufferView.hasSelection; rw [hg]; rfl
  · unfold TextBufferView.setLocalSelection; rw [hg]; rfl
  · unfold TextBufferView.updateLocalSelection; rw [hg]; rfl
  · unfold TextBufferView.resetLocalSelection; rw [hg]; rfl
  · unfold TextBufferView.setWrapWidth; rw [hg]; rfl
  · unfold TextBufferView.setWrapMode; rw [hg]; rfl
  · unfold TextBufferView.setViewportSize; rw [hg]; rfl
  · unfold TextBufferView.setViewport; rw [hg]; rfl
  · unfold TextBufferView.lineInfo; rw [hg]; rfl
  · unfold TextBufferView.logicalLineInfo; rw [hg]; rfl
  · unfold TextBufferView.getSelectedText; rw [hg]; rfl
  · unfold TextBufferView.getPlainText; rw [hg]; rfl
  · unfold TextBufferView.setTabIndicator; rw [hg]; rfl
  · unfold TextBufferView.setTabIndicatorColor; rw [hg]; rfl
  · unfold TextBufferView.setTruncate; rw [hg]; rfl
  · unfold TextBufferView.measureForDimensions; rw [hg]; rfl
  · unfold TextBufferView.getVirtualLineCount; rw [hg]; rfl

/-- A concrete render library with inert native functions, used to witness
the destroyed-view theorems. -/
def trivialRenderLib : RenderLib where
  textBufferViewSetSelection := fun _ _ _ _ _ => ()
  textBufferViewUpdateSelection := fun _ _ _ _ => ()
  textBufferViewResetSelection := fun _ => ()
  textBufferViewGetSelection := fun _ => Option.none
  textBufferViewSetLocalSelection := fun _ _ _ _ _ _ _ => false
  textBufferViewUpdateLocalSelection := fun _ _ _ _ _ _ _ => false
  textBufferViewResetLocalSelection := fun _ => ()
  textBufferViewSetWrapWidth := fun _ _ => ()
  textBufferViewSetWrapMode := fun _ _ => ()
  textBufferViewSetViewportSize := fun _ _ _ => ()
  textBufferViewSetViewport := fun _ _ _ _ _ => ()
  textBufferViewGetLineInfo := fun _ => (0 : Nat)
  textBufferViewGetLogicalLineInfo := fun _ => (0 : Nat)
  textBufferViewGetSelectedTextBytes := fun _ _ => Option.none
  textBufferViewGetPlainTextBytes := fun _ _ => Option.none
  textBufferViewSetTabIndicator := fun _ _ => ()
  textBufferViewSetTabIndicatorColor := fun _ _ => ()
  textBufferViewSetTruncate := fun _ _ => ()
  textBufferViewMeasureForDimensions := fun _ _ _ => Option.none
  textBufferViewGetVirtualLineCount := fun _ => 0
  destroyTextBufferView := fun _ => ()
  decode := fun _ => ""

/-- Witness for C9: on a concrete destroyed view, `ptr`, `getSelection` and
`setWrapMode` all return the destroyed-view error. -/
theorem destroyedView_all_ops_throw_witness :
    TextBufferView.ptr ⟨7, 0, true, 1⟩ = TextBufferView.destroyedError Pointer ∧
    TextBufferView.getSelection trivialRenderLib ⟨7, 0, true, 1⟩ =
      TextBufferView.destroyedError (Option (Nat × Nat)) ∧
    TextBufferView.setWrapMode trivialRenderLib ⟨7, 0, true, 1⟩ WrapMode.word =
      TextBufferView.destroyedError Unit := by
  have h := destroyedView_all_ops_throw trivialRenderLib ⟨7, 0, true, 1⟩ rfl
  exact ⟨h.1, h.2.2.2.2.1, h.2.2.2.2.2.2.2.2.2.2.1 WrapMode.word⟩

/-- C10: `destroy()` is idempotent and never throws: on a destroyed view it
returns immediately without calling the native destroy again; on a live
view it marks the view destroyed and invokes the native destroy exactly
once, and any number of further `destroy()` calls change nothing. -/
theorem destroy_idempotent_single_release :
    (∀ s, TextBufferView.destroy (TextBufferView.destroy s) = TextBufferView.destroy s) ∧
    (∀ s, s.destroyed = true → TextBufferView.destroy s = s) ∧
    (∀ s, s.destroyed = false → (TextBufferView.destroy s).destroyed = true ∧
      (TextBufferView.destroy s).nativeDestroyCalls = s.nativeDestroyCalls + 1) ∧
    (∀ s n, TextBufferView.destroy^[n + 1] s = TextBufferView.destroy s) := by
  have hdes : ∀ s : TextBufferViewState, s.destroyed = true →
      TextBufferView.destroy s = s := by
    intro s h
    unfold TextBufferView.destroy
    rw [if_pos h]
  have hlive : ∀ s : TextBufferViewState, s.destroyed = false →
      TextBufferView.destroy s =
        { s with destroyed := true, nativeDestroyCalls := s.nativeDestroyCalls + 1 } := by
    intro s h
    unfold TextBufferView.destroy
    rw [if_neg (by rw [h]; exact Bool.false_ne_true)]
  have hidem : ∀ s, TextBufferView.destroy (TextBufferView.destroy s) =
      TextBufferView.destroy s := by
    intro s
    by_cases h : s.destroyed = true
    · rw [hdes s h, hdes s h]
    · have hf : s.destroyed = false := by
        cases hs : s.destroyed
        · rfl
        · exact absurd hs h
      rw [hlive s hf]
      exact hdes _ rfl
  have hiter : ∀ n s, TextBufferView.destroy^[n + 1] s = TextBufferView.destroy s := by
    intro n
    induction n with
    | zero => intro s; rfl
    | succ n ih =>
      intro s
      rw [Function.iterate_succ_apply (TextBufferView.destroy) (n + 1) s]
      rw [ih (TextBufferView.destroy s), hidem s]
  refine ⟨hidem, hdes, ?_, fun s n => hiter n s⟩
  intro s h
  rw [hlive s h]
  exact ⟨rfl, rfl⟩

/-- Witness for C10 at a concrete live view: double destroy equals single
destroy, a destroyed view is left untouched, a live destroy releases the
native view once, and five destroys equal one. -/
theorem destroy_idempotent_single_release_witness :
    TextBufferView.destroy (TextBufferView.destroy ⟨3, 0, false, 0⟩) =
      TextBufferView.destroy ⟨3, 0, false, 0⟩ ∧
    TextBufferView.destroy ⟨3, 0, true, 1⟩ = ⟨3, 0, true, 1⟩ ∧
    ((TextBufferView.destroy ⟨3, 0, false, 0⟩).destroyed = true ∧
      (TextBufferView.destroy ⟨3, 0, false, 0⟩).nativeDestroyCalls = 0 + 1) ∧
    TextBufferView.destroy^[5] ⟨3, 0, false, 0⟩ =
      TextBufferView.destroy ⟨3, 0, false, 0⟩ :=
  ⟨destroy_idempotent_single_release.1 ⟨3, 0, false, 0⟩,
   destroy_idempotent_single_release.2.1 ⟨3, 0, true, 1⟩ rfl,
   destroy_idempotent_single_release.2.2.1 ⟨3, 0, false, 0⟩ rfl,
   destroy_idempotent_single_release.2.2.2 ⟨3, 0, false, 0⟩ 4⟩

/-! ## The grapheme/width engine -/

/-- The explicit emoji/pictographic ranges that `eawToWidth` maps to width
2 after the East-Asian `fullwidth`/`wide` test, in source order. -/
def emojiWidthTwo (cp : Nat) : Bool :=
  (0x1F000 ≤ cp && cp ≤ 0x1F02B) || (0x1F030 ≤ cp && cp ≤ 0x1F093) ||
  (0x1F0A0 ≤ cp && cp ≤ 0x1F0AE) || (0x1F0B1 ≤ cp && cp ≤ 0x1F0BF) ||
  (0x1F0C1 ≤ cp && cp ≤ 0x1F0CF) || (0x1F0D1 ≤ cp && cp ≤ 0x1F0F5) ||
  (cp = 0x231A || cp = 0x231B) || (cp = 0x2329 || cp = 0x232A) ||
  (0x23E9 ≤ cp && cp ≤ 0x23EC) || (cp = 0x23F0 || cp = 0x23F3) ||
  (0x25FD ≤ cp && cp ≤ 0x25FE) ||
  (0x2614 ≤ cp && cp ≤ 0x2615) || (cp = 0x2622 || cp = 0x2623) ||
  (0x2630 ≤ cp && cp ≤ 0x2637) || (0x2648 ≤ cp && cp ≤ 0x2653) ||
  (cp = 0x267F || cp = 0x2693 || cp = 0x269B) || (cp = 0x26A0 || cp = 0x26A1) ||
  (0x26AA ≤ cp && cp ≤ 0x26AB) || (0x26BD ≤ cp && cp ≤ 0x26BE) ||
  (0x26C4 ≤ cp && cp ≤ 0x26C5) || (cp = 0x26CE || cp = 0x26D1 || cp = 0x26D4) ||
  (cp = 0x26EA || cp = 0x26F2 || cp = 0x26F3) ||
  (cp = 0x26F5 || cp = 0x26FA || cp = 0x26FD) ||
  (cp = 0x203C || cp = 0x2049) ||
  (cp = 0x2705 || (0x270A ≤ cp && cp ≤ 0x270B)) ||
  (cp = 0x2728 || cp = 0x274C || cp = 0x274E) ||
  (0x2753 ≤ cp && cp ≤ 0x2755) || (cp = 0x2757) ||
  (0x2760 ≤ cp && cp ≤ 0x2767) || (0x2795 ≤ cp && cp ≤ 0x2797) ||
  (cp = 0x27B0 || cp = 0x27BF) || (0x2B1B ≤ cp && cp ≤ 0x2B1C) ||
  (0x2B50 ≤ cp && cp ≤ 0x2B50) || (0x2B55 ≤ cp && cp ≤ 0x2B55) ||
  (0x1F300 ≤ cp && cp ≤ 0x1F320) || (0x1F32D ≤ cp && cp ≤ 0x1F335) ||
  (0x1F337 ≤ cp && cp ≤ 0x1F37C) || (0x1F37E ≤ cp && cp ≤ 0x1F393) ||
  (0x1F3A0 ≤ cp && cp ≤ 0x1F3CA) || (0x1F3CF ≤ cp && cp ≤ 0x1F3D3) ||
  (0x1F3E0 ≤ cp && cp ≤ 0x1F3F0) || (cp = 0x1F3F4) ||
  (0x1F3F8 ≤ cp && cp ≤ 0x1F3FF) || (0x1F400 ≤ cp && cp ≤ 0x1F43E) ||
  (cp = 0x1F440) || (0x1F442 ≤ cp && cp ≤ 0x1F4FC) ||
  (0x1F4FF ≤ cp && cp ≤ 0x1F6C5) || (cp = 0x1F6CC) ||
  (0x1F6D0 ≤ cp && cp ≤ 0x1F6D2) || (0x1F6D5 ≤ cp && cp ≤ 0x1F6D7) ||
  (0x1F6DC ≤ cp && cp ≤ 0x1F6DF) || (0x1F6EB ≤ cp && cp ≤ 0x1F6EC) ||
  (0x1F6F4 ≤ cp && cp ≤ 0x1F6FC) || (0x1F700 ≤ cp && cp ≤ 0x1F773) ||
  (0x1F780 ≤ cp && cp ≤ 0x1F7D8) || (0x1F7E0 ≤ cp && cp ≤ 0x1F7EB) ||
  (0x1F800 ≤ cp && cp ≤ 0x1F80B) || (0x1F810 ≤ cp && cp ≤ 0x1F847) ||
  (0x1F850 ≤ cp && cp ≤ 0x1F859) || (0x1F860 ≤ cp && cp ≤ 0x1F887) ||
  (0x1F890 ≤ cp && cp ≤ 0x1F8AD) || (0x1F8B0 ≤ cp && cp ≤ 0x1F8B1) ||
  (0x1F90C ≤ cp && cp ≤ 0x1F93A) || (0x1F93C ≤ cp && cp ≤ 0x1F945) ||
  (0x1F947 ≤ cp && cp ≤ 0x1FA53) || (0x1FA60 ≤ cp && cp ≤ 0x1FA6D) ||
  (0x1FA70 ≤ cp && cp ≤ 0x1FA74) || (0x1FA78 ≤ cp && cp ≤ 0x1FA7C) ||
  (0x1FA80 ≤ cp && cp ≤ 0x1FA86) || (0x1FA90 ≤ cp && cp ≤ 0x1FAAC) ||
  (0x1FAB0 ≤ cp && cp ≤ 0x1FABA) || (0x1FAC0 ≤ cp && cp ≤ 0x1FAC5) ||
  (0x1FAD0 ≤ cp && cp ≤ 0x1FAD9) || (0x1FAE0 ≤ cp && cp ≤ 0x1FAE7) ||
  (0x1FAF0 ≤ cp && cp ≤ 0x1FAF8)

/-- The default-ignorable / variation-selector codepoints that `eawToWidth`
maps to width 0, in source order. -/
def zeroWidthCp (cp : Nat) : Bool :=
  cp = 0x200B || cp = 0x200C || cp = 0x200D || cp = 0x2060 || cp = 0x034F ||
  cp = 0xFEFF || (0x180B ≤ cp && cp ≤ 0x180D) || (0xFE00 ≤ cp && cp ≤ 0xFE0F) ||
  (0xE0100 ≤ cp && cp ≤ 0xE01EF)

/-- Calculate width from the East-Asian width property and Unicode
properties; -1 flags control characters.  Mirrors `eawToWidth`. -/
def eawToWidth (T : UnicodeTables) (cp : Nat) (eaw : EastAsianWidth) : Int :=
  if cp = 0 then 0
  else if cp < 32 ∨ (0x7F ≤ cp ∧ cp < 0xA0) then -1
  else
    match T.gc cp with
    | GeneralCategory.mark_nonspacing => 0
    | GeneralCategory.mark_spacing_combining => 0
    | GeneralCategory.mark_enclosing => 0
    | GeneralCategory.other =>
      if zeroWidthCp cp then 0
      else if eaw = EastAsianWidth.fullwidth ∨ eaw = EastAsianWidth.wide then 2
      else if emojiWidthTwo cp then 2
      else 1

/-- Mirrors `eastAsianWidth`: table lookup clamped to non-negative. -/
def eastAsianWidth (T : UnicodeTables) (cp : Nat) : Nat :=
  if cp > 0x10FFFF then 0
  else
    let w := eawToWidth T cp (T.eaw cp)
    if w > 0 then w.toNat else 0

/-- Display width of a byte for the ASCII-only fast paths. -/
def asciiCharWidth (byte tab_width : Nat) : Nat :=
  if byte = 9 then tab_width
  else if 32 ≤ byte ∧ byte ≤ 126 then 1
  else 0

/-- Display width of a character (byte or codepoint).  Mirrors `charWidth`. -/
def charWidth (T : UnicodeTables) (byte cp tab_width : Nat) : Nat :=
  if byte = 9 then tab_width
  else if byte < 0x80 ∧ 32 ≤ byte ∧ byte ≤ 126 then 1
  else if 0x80 ≤ byte then
    let w := eawToWidth T cp (T.eaw cp)
    if w > 0 then w.toNat else 0
  else 0

/-- Codepoints valid for grapheme break detection. -/
def isValidCodepoint (cp : Nat) : Bool :=
  cp ≠ 0xFFFD && cp ≤ 0x10FFFF

/-- Is there a grapheme break between two codepoints?  Returns the verdict
and the updated break state.  Mirrors `isGraphemeBreak` (including the
`no_zwj` forced break after ZWJ, which resets the state to `.default`). -/
def isGraphemeBreak (T : UnicodeTables) (prev_cp : Option Nat) (curr_cp : Nat)
    (break_state : Nat) (width_method : WidthMethod) : Bool × Nat :=
  if width_method = WidthMethod.wcwidth then
    match prev_cp with
    | Option.none => (true, break_state)
    | Option.some p =>
      if ¬ isValidCodepoint curr_cp then (true, break_state)
      else if ¬ isValidCodepoint p then (true, break_state)
      else T.isBreak p curr_cp break_state
  else
    if ¬ isValidCodepoint curr_cp then (true, break_state)
    else if width_method = WidthMethod.no_zwj ∧ prev_cp = Option.some 0x200D then
      (true, 0)
    else
      match prev_cp with
      | Option.some p =>
        if ¬ isValidCodepoint p then (true, break_state)
        else T.isBreak p curr_cp break_state
      | Option.none => (true, break_state)

/-- State for accumulating grapheme cluster width. -/
structure GraphemeWidthState where
  width : Nat
  has_width : Bool
  is_regional_indicator_pair : Bool
  has_vs16 : Bool
  has_indic_virama : Bool
  width_method : WidthMethod
deriving DecidableEq, Repr

/-- Initialize the state with the first codepoint of a cluster. -/
def GraphemeWidthState.init (first_cp first_width : Nat)
    (width_method : WidthMethod) : GraphemeWidthState where
  width := first_width
  has_width := first_width > 0
  is_regional_indicator_pair := 0x1F1E6 ≤ first_cp && first_cp ≤ 0x1F1FF
  has_vs16 := false
  has_indic_virama := false
  width_method := width_method

/-- Add a codepoint to the current cluster.  Mirrors
`GraphemeWidthState.addCodepoint` (wcwidth: sum of positive codepoint
widths; unicode/no_zwj: grapheme-aware with VS16 promotion, regional
indicator pairs and Indic virama conjuncts). -/
def GraphemeWidthState.addCodepoint (T : UnicodeTables) (self : GraphemeWidthState)
    (cp cp_width : Nat) : GraphemeWidthState :=
  if self.width_method = WidthMethod.wcwidth then
    let w := eawToWidth T cp (T.eaw cp)
    if w > 0 then { self with width := self.width + w.toNat, has_width := true }
    else self
  else
    let is_ri := 0x1F1E6 ≤ cp && cp ≤ 0x1F1FF
    let is_vs16 := cp = 0xFE0F
    let is_virama := T.gc cp = GeneralCategory.mark_nonspacing
    let is_devanagari_ra := cp = 0x0930
    let is_devanagari_base :=
      (0x0915 ≤ cp && cp ≤ 0x0939) || (0x0958 ≤ cp && cp ≤ 0x095F)
    if is_vs16 then
      let self1 := { self with has_vs16 := true }
      if self1.has_width ∧ self1.width = 1 then { self1 with width := 2 } else self1
    else if is_virama then { self with has_indic_virama := true }
    else if self.is_regional_indicator_pair && is_ri then
      { self with width := self.width + cp_width, has_width := true }
    else if !self.has_width && cp_width > 0 then
      { self with width := cp_width, has_width := true }
    else if self.has_width && self.has_indic_virama && is_devanagari_base &&
        cp_width > 0 then
      if ¬ is_devanagari_ra then
        { self with width := self.width + cp_width, has_indic_virama := false }
      else { self with has_indic_virama := false }
    else self

/-- Result records of the width queries. -/
structure WrapByWidthResult where
  byte_offset : Nat
  grapheme_count : Nat
  columns_used : Nat
deriving DecidableEq, Repr

structure PosByWidthResult where
  byte_offset : Nat
  grapheme_count : Nat
  columns_used : Nat
deriving DecidableEq, Repr

/-- The scan state shared by the wrap/pos loops (`ClusterState`). -/
structure ClusterState where
  columns_used : Nat
  grapheme_count : Nat
  cluster_width : Nat
  cluster_start : Nat
  prev_cp : Option Nat
  break_state : Nat
  width_state : GraphemeWidthState
  width_method : WidthMethod
  cluster_started : Bool
deriving DecidableEq, Repr

def ClusterState.init (width_method : WidthMethod) : ClusterState where
  columns_used := 0
  grapheme_count := 0
  cluster_width := 0
  cluster_start := 0
  prev_cp := Option.none
  break_state := 0
  width_state := GraphemeWidthState.init 0 0 width_method
  width_method := width_method
  cluster_started := false

/-- Cluster-boundary handling when wrapping by width; `none` signals that
the limit would be exceeded (stop before the current cluster).  Mirrors
`handleClusterForWrap`. -/
def handleClusterForWrap (state : ClusterState) (is_break : Bool)
    (new_cluster_start max_columns : Nat) : Option ClusterState :=
  if is_break then
    match state.prev_cp with
    | Option.some _ =>
      if state.columns_used + state.cluster_width > max_columns then Option.none
      else
        Option.some { state with
          columns_used := state.columns_used + state.cluster_width
          grapheme_count := state.grapheme_count + 1
          cluster_width := 0
          cluster_start := new_cluster_start
          cluster_started := false }
    | Option.none =>
      Option.some { state with
        cluster_width := 0
        cluster_start := new_cluster_start
        cluster_started := false }
  else Option.some state

/-- Cluster-boundary handling for position queries; `none` signals stop.
Mirrors `handleClusterForPos` (note: in the `include_start_before = false`
branch the grapheme count is not incremented, exactly as in the source). -/
def handleClusterForPos (state : ClusterState) (is_break : Bool)
    (new_cluster_start max_columns : Nat) (include_start_before : Bool) :
    Option ClusterState :=
  if is_break then
    match state.prev_cp with
    | Option.some _ =>
      let cluster_end_col := state.columns_used + state.cluster_width
      if include_start_before then
        if state.columns_used ≥ max_columns then Option.none
        else
          Option.some { state with
            columns_used := cluster_end_col
            grapheme_count := state.grapheme_count + 1
            cluster_width := 0
            cluster_start := new_cluster_start
            cluster_started := false }
      else
        if cluster_end_col > max_columns then Option.none
        else
          Option.some { state with
            columns_used := cluster_end_col
            cluster_width := 0
            cluster_start := new_cluster_start
            cluster_started := false }
    | Option.none =>
      Option.some { state with
        cluster_width := 0
        cluster_start := new_cluster_start
        cluster_started := false }
  else Option.some state

/-- The width-accumulation step every scan loop performs after the boundary
handling (verbatim in each loop of the source): start a new cluster or add
the codepoint to the running one. -/
def clusterWidthUpdate (T : UnicodeTables) (st : ClusterState)
    (curr_cp cp_width : Nat) : ClusterState :=
  if ¬ st.cluster_started then
    { st with
      width_state := GraphemeWidthState.init curr_cp cp_width st.width_method
      cluster_width := cp_width
      cluster_started := true }
  else
    let ws := GraphemeWidthState.addCodepoint T st.width_state curr_cp cp_width
    { st with width_state := ws, cluster_width := ws.width }

/-- Does the 16-byte chunk at `pos` consist only of ASCII bytes?  (The
negated `@reduce(.Or, chunk >= 0x80)` test of the scan loops.) -/
def chunkAllAscii (text : List Nat) (pos : Nat) : Bool :=
  ! (List.range 16).any fun i => 0x80 ≤ text.getD (pos + i) 0

/-- The final-cluster block of `findWrapPosByWidthUnicode`. -/
def wrapFinalize (text_len max_columns : Nat) (st : ClusterState) : WrapByWidthResult :=
  if st.prev_cp ≠ Option.none ∧ st.cluster_width > 0 then
    if st.columns_used + st.cluster_width > max_columns then
      ⟨st.cluster_start, st.grapheme_count, st.columns_used⟩
    else ⟨text_len, st.grapheme_count + 1, st.columns_used + st.cluster_width⟩
  else ⟨text_len, st.grapheme_count, st.columns_used⟩

/-- The scalar tail loop of `findWrapPosByWidthUnicode` (also the reference
semantics the chunked loops are proved to implement). -/
def wrapTailLoop (T : UnicodeTables) (text : List Nat) (max_columns tab_width : Nat) :
    Nat → Nat → ClusterState → WrapByWidthResult
  | 0, _, st => wrapFinalize text.length max_columns st
  | fuel + 1, pos, st =>
    if pos < text.length then
      let b0 := text.getD pos 0
      let curr_cp := if b0 < 0x80 then b0 else (decodeUtf8Unchecked text pos).cp
      let cp_len := if b0 < 0x80 then 1 else (decodeUtf8Unchecked text pos).len
      let br := isGraphemeBreak T st.prev_cp curr_cp st.break_state st.width_method
      let st1 := { st with break_state := br.2 }
      match handleClusterForWrap st1 br.1 pos max_columns with
      | Option.none => ⟨st1.cluster_start, st1.grapheme_count, st1.columns_used⟩
      | Option.some st2 =>
        let cp_width := charWidth T b0 curr_cp tab_width
        let st3 := clusterWidthUpdate T st2 curr_cp cp_width
        wrapTailLoop T text max_columns tab_width fuel (pos + cp_len)
          { st3 with prev_cp := Option.some curr_cp }
    else wrapFinalize text.length max_columns st

/-- The all-ASCII inner chunk loop of `findWrapPosByWidthUnicode`
(16 iterations over bytes `pos + i`); `Sum.inl` is an early return. -/
def wrapAsciiChunkLoop (T : UnicodeTables) (text : List Nat)
    (max_columns tab_width pos : Nat) :
    Nat → Nat → ClusterState → Sum WrapByWidthResult ClusterState
  | 0, _, st => Sum.inr st
  | fuel + 1, i, st =>
    if i < 16 then
      let b := text.getD (pos + i) 0
      let curr_cp := b
      let br := isGraphemeBreak T st.prev_cp curr_cp st.break_state st.width_method
      let st1 := { st with break_state := br.2 }
      match handleClusterForWrap st1 br.1 (pos + i) max_columns with
      | Option.none => Sum.inl ⟨st1.cluster_start, st1.grapheme_count, st1.columns_used⟩
      | Option.some st2 =>
        let cp_width := asciiCharWidth b tab_width
        let st3 := clusterWidthUpdate T st2 curr_cp cp_width
        wrapAsciiChunkLoop T text max_columns tab_width pos fuel (i + 1)
          { st3 with prev_cp := Option.some curr_cp }
    else Sum.inr st

/-- The mixed ASCII/non-ASCII inner chunk loop of
`findWrapPosByWidthUnicode`; `Sum.inr` carries how far `i` advanced. -/
def wrapMixedChunkLoop (T : UnicodeTables) (text : List Nat)
    (max_columns tab_width pos : Nat) :
    Nat → Nat → ClusterState → Sum WrapByWidthResult (Nat × ClusterState)
  | 0, i, st => Sum.inr (i, st)
  | fuel + 1, i, st =>
    if i < 16 ∧ pos + i < text.length then
      let b0 := text.getD (pos + i) 0
      let curr_cp := if b0 < 0x80 then b0 else (decodeUtf8Unchecked text (pos + i)).cp
      let cp_len := if b0 < 0x80 then 1 else (decodeUtf8Unchecked text (pos + i)).len
      if pos + i + cp_len > text.length then Sum.inr (i, st)
      else
        let br := isGraphemeBreak T st.prev_cp curr_cp st.break_state st.width_method
        let st1 := { st with break_state := br.2 }
        match handleClusterForWrap st1 br.1 (pos + i) max_columns with
        | Option.none =>
          Sum.inl ⟨st1.cluster_start, st1.grapheme_count, st1.columns_used⟩
        | Option.some st2 =>
          let cp_width := charWidth T b0 curr_cp tab_width
          let st3 := clusterWidthUpdate T st2 curr_cp cp_width
          wrapMixedChunkLoop T text max_columns tab_width pos fuel (i + cp_len)
            { st3 with prev_cp := Option.some curr_cp }
    else Sum.inr (i, st)

/-- The 16-byte vector main loop of `findWrapPosByWidthUnicode`. -/
def wrapVecLoop (T : UnicodeTables) (text : List Nat) (max_columns tab_width : Nat) :
    Nat → Nat → ClusterState → WrapByWidthResult
  | 0, pos, st => wrapTailLoop T text max_columns tab_width text.length pos st
  | fuel + 1, pos, st =>
    if pos + 16 ≤ text.length then
      if chunkAllAscii text pos then
        match wrapAsciiChunkLoop T text max_columns tab_width pos 16 0 st with
        | Sum.inl r => r
        | Sum.inr st2 => wrapVecLoop T text max_columns tab_width fuel (pos + 16) st2
      else
        match wrapMixedChunkLoop T text max_columns tab_width pos 16 0 st with
        | Sum.inl r => r
        | Sum.inr (i, st2) => wrapVecLoop T text max_columns tab_width fuel (pos + i) st2
    else wrapTailLoop T text max_columns tab_width text.length pos st

/-- Find wrap position by width, Unicode grapheme segmentation.  Mirrors
`findWrapPosByWidthUnicode` (empty/zero guard, ASCII fast path, SIMD16 main
loop, scalar tail, final cluster). -/
def findWrapPosByWidthUnicode (T : UnicodeTables) (text : List Nat)
    (max_columns tab_width : Nat) (isASCIIOnly : Bool) (width_method : WidthMethod) :
    WrapByWidthResult :=
  if text.length = 0 ∨ max_columns = 0 then ⟨0, 0, 0⟩
  else if isASCIIOnly then
    if max_columns ≥ text.length then ⟨text.length, text.length, text.length⟩
    else ⟨max_columns, max_columns, max_columns⟩
  else
    wrapVecLoop T text max_columns tab_width text.length 0
      (ClusterState.init width_method)

/-- The per-codepoint loop of `findWrapPosByWidthWCWidth`. -/
def wrapWCLoop (T : UnicodeTables) (text : List Nat) (max_columns tab_width : Nat) :
    Nat → Nat → Nat → Nat → WrapByWidthResult
  | 0, _, cols, cnt => ⟨text.length, cnt, cols⟩
  | fuel + 1, pos, cols, cnt =>
    if pos < text.length then
      let b0 := text.getD pos 0
      let dec := decodeUtf8Unchecked text pos
      let curr_cp := if b0 < 0x80 then b0
        else if pos + dec.len > text.length then 0xFFFD else dec.cp
      let cp_len := if b0 < 0x80 then 1 else dec.len
      if pos + cp_len > text.length then ⟨text.length, cnt, cols⟩
      else
        let cp_width := charWidth T b0 curr_cp tab_width
        if cols ≥ max_columns then ⟨pos, cnt, cols⟩
        else if cols + cp_width > max_columns then ⟨pos, cnt, cols⟩
        else wrapWCLoop T text max_columns tab_width fuel (pos + cp_len)
          (cols + cp_width) (cnt + 1)
    else ⟨text.length, cnt, cols⟩

/-- Mirrors `findWrapPosByWidthWCWidth`. -/
def findWrapPosByWidthWCWidth (T : UnicodeTables) (text : List Nat)
    (max_columns tab_width : Nat) (isASCIIOnly : Bool) : WrapByWidthResult :=
  if text.length = 0 ∨ max_columns = 0 then ⟨0, 0, 0⟩
  else if isASCIIOnly then
    if max_columns ≥ text.length then ⟨text.length, text.length, text.length⟩
    else ⟨max_columns, max_columns, max_columns⟩
  else wrapWCLoop T text max_columns tab_width text.length 0 0 0

/-- Proxy dispatching on the width method.  Mirrors `findWrapPosByWidth`. -/
def findWrapPosByWidth (T : UnicodeTables) (text : List Nat)
    (max_columns tab_width : Nat) (isASCIIOnly : Bool) (width_method : WidthMethod) :
    WrapByWidthResult :=
  match width_method with
  | WidthMethod.unicode =>
    findWrapPosByWidthUnicode T text max_columns tab_width isASCIIOnly width_method
  | WidthMethod.no_zwj =>
    findWrapPosByWidthUnicode T text max_columns tab_width isASCIIOnly width_method
  | WidthMethod.wcwidth =>
    findWrapPosByWidthWCWidth T text max_columns tab_width isASCIIOnly

/-- The final-cluster block of `findPosByWidthUnicode` (note: it tests the
cluster start column against the limit in both snapping modes, and counts
the final cluster only when `include_start_before`). -/
def posFinalize (text_len max_columns : Nat) (include_start_before : Bool)
    (st : ClusterState) : PosByWidthResult :=
  if st.prev_cp ≠ Option.none ∧ st.cluster_width > 0 then
    if st.columns_used ≥ max_columns then
      ⟨st.cluster_start, st.grapheme_count, st.columns_used⟩
    else
      ⟨text_len,
        if include_start_before then st.grapheme_count + 1 else st.grapheme_count,
        st.columns_used + st.cluster_width⟩
  else ⟨text_len, st.grapheme_count, st.columns_used⟩

/-- The scalar tail loop of `findPosByWidthUnicode`. -/
def posTailLoop (T : UnicodeTables) (text : List Nat) (max_columns tab_width : Nat)
    (include_start_before : Bool) :
    Nat → Nat → ClusterState → PosByWidthResult
  | 0, _, st => posFinalize text.length max_columns include_start_before st
  | fuel + 1, pos, st =>
    if pos < text.length then
      let b0 := text.getD pos 0
      let curr_cp := if b0 < 0x80 then b0 else (decodeUtf8Unchecked text pos).cp
      let cp_len := if b0 < 0x80 then 1 else (decodeUtf8Unchecked text pos).len
      let br := isGraphemeBreak T st.prev_cp curr_cp st.break_state st.width_method
      let st1 := { st with break_state := br.2 }
      match handleClusterForPos st1 br.1 pos max_columns include_start_before with
      | Option.none => ⟨st1.cluster_start, st1.grapheme_count, st1.columns_used⟩
      | Option.some st2 =>
        let cp_width := charWidth T b0 curr_cp tab_width
        let st3 := clusterWidthUpdate T st2 curr_cp cp_width
        posTailLoop T text max_columns tab_width include_start_before fuel
          (pos + cp_len) { st3 with prev_cp := Option.some curr_cp }
    else posFinalize text.length max_columns include_start_before st

/-- The all-ASCII inner chunk loop of `findPosByWidthUnicode`. -/
def posAsciiChunkLoop (T : UnicodeTables) (text : List Nat)
    (max_columns tab_width pos : Nat) (include_start_before : Bool) :
    Nat → Nat → ClusterState → Sum PosByWidthResult ClusterState
  | 0, _, st => Sum.inr st
  | fuel + 1, i, st =>
    if i < 16 then
      let b := text.getD (pos + i) 0
      let curr_cp := b
      let br := isGraphemeBreak T st.prev_cp curr_cp st.break_state st.width_method
      let st1 := { st with break_state := br.2 }
      match handleClusterForPos st1 br.1 (pos + i) max_columns include_start_before with
      | Option.none => Sum.inl ⟨st1.cluster_start, st1.grapheme_count, st1.columns_used⟩
      | Option.some st2 =>
        let cp_width := asciiCharWidth b tab_width
        let st3 := clusterWidthUpdate T st2 curr_cp cp_width
        posAsciiChunkLoop T text max_columns tab_width pos include_start_before fuel
          (i + 1) { st3 with prev_cp := Option.some curr_cp }
    else Sum.inr st

/-- The mixed inner chunk loop of `findPosByWidthUnicode`. -/
def posMixedChunkLoop (T : UnicodeTables) (text : List Nat)
    (max_columns tab_width pos : Nat) (include_start_before : Bool) :
    Nat → Nat → ClusterState → Sum PosByWidthResult (Nat × ClusterState)
  | 0, i, st => Sum.inr (i, st)
  | fuel + 1, i, st =>
    if i < 16 ∧ pos + i < text.length then
      let b0 := text.getD (pos + i) 0
      let curr_cp := if b0 < 0x80 then b0 else (decodeUtf8Unchecked text (pos + i)).cp
      let cp_len := if b0 < 0x80 then 1 else (decodeUtf8Unchecked text (pos + i)).len
      if pos + i + cp_len > text.length then Sum.inr (i, st)
      else
        let br := isGraphemeBreak T st.prev_cp curr_cp st.break_state st.width_method
        let st1 := { st with break_state := br.2 }
        match handleClusterForPos st1 br.1 (pos + i) max_columns include_start_before with
        | Option.none =>
          Sum.inl ⟨st1.cluster_start, st1.grapheme_count, st1.columns_used⟩
        | Option.some st2 =>
          let cp_width := charWidth T b0 curr_cp tab_width
          let st3 := clusterWidthUpdate T st2 curr_cp cp_width
          posMixedChunkLoop T text max_columns tab_width pos include_start_before fuel
            (i + cp_len) { st3 with prev_cp := Option.some curr_cp }
    else Sum.inr (i, st)

/-- The 16-byte vector main loop of `findPosByWidthUnicode`. -/
def posVecLoop (T : UnicodeTables) (text : List Nat) (max_columns tab_width : Nat)
    (include_start_before : Bool) :
    Nat → Nat → ClusterState → PosByWidthResult
  | 0, pos, st =>
    posTailLoop T text max_columns tab_width include_start_before text.length pos st
  | fuel + 1, pos, st =>
    if pos + 16 ≤ text.length then
      if chunkAllAscii text pos then
        match posAsciiChunkLoop T text max_columns tab_width pos include_start_before
            16 0 st with
        | Sum.inl r => r
        | Sum.inr st2 =>
          posVecLoop T text max_columns tab_width include_start_before fuel
            (pos + 16) st2
      else
        match posMixedChunkLoop T text max_columns tab_width pos include_start_before
            16 0 st with
        | Sum.inl r => r
        | Sum.inr (i, st2) =>
          posVecLoop T text max_columns tab_width include_start_before fuel
            (pos + i) st2
    else posTailLoop T text max_columns tab_width include_start_before text.length pos st

/-- Mirrors `findPosByWidthUnicode`. -/
def findPosByWidthUnicode (T : UnicodeTables) (text : List Nat)
    (max_columns tab_width : Nat) (isASCIIOnly include_start_before : Bool)
    (width_method : WidthMethod) : PosByWidthResult :=
  if text.length = 0 ∨ max_columns = 0 then ⟨0, 0, 0⟩
  else if isASCIIOnly then
    if max_columns ≥ text.length then ⟨text.length, text.length, text.length⟩
    else ⟨max_columns, max_columns, max_columns⟩
  else
    posVecLoop T text max_columns tab_width include_start_before text.length 0
      (ClusterState.init width_method)

/-- The per-codepoint loop of `findPosByWidthWCWidth`. -/
def posWCLoop (T : UnicodeTables) (text : List Nat) (max_columns tab_width : Nat)
    (include_start_before : Bool) :
    Nat → Nat → Nat → Nat → PosByWidthResult
  | 0, _, cols, cnt => ⟨text.length, cnt, cols⟩
  | fuel + 1, pos, cols, cnt =>
    if pos < text.length then
      let b0 := text.getD pos 0
      let dec := decodeUtf8Unchecked text pos
      let curr_cp := if b0 < 0x80 then b0
        else if pos + dec.len > text.length then 0xFFFD else dec.cp
      let cp_len := if b0 < 0x80 then 1 else dec.len
      if pos + cp_len > text.length then ⟨text.length, cnt, cols⟩
      else
        let cp_width := charWidth T b0 curr_cp tab_width
        if include_start_before then
          if cols ≥ max_columns then ⟨pos, cnt, cols⟩
          else posWCLoop T text max_columns tab_width include_start_before fuel
            (pos + cp_len) (cols + cp_width) (cnt + 1)
        else
          if cols + cp_width > max_columns then ⟨pos, cnt, cols⟩
          else posWCLoop T text max_columns tab_width include_start_before fuel
            (pos + cp_len) (cols + cp_width) (cnt + 1)
    else ⟨text.length, cnt, cols⟩

/-- Mirrors `findPosByWidthWCWidth`. -/
def findPosByWidthWCWidth (T : UnicodeTables) (text : List Nat)
    (max_columns tab_width : Nat) (isASCIIOnly include_start_before : Bool) :
    PosByWidthResult :=
  if text.length = 0 ∨ max_columns = 0 then ⟨0, 0, 0⟩
  else if isASCIIOnly then
    if max_columns ≥ text.length then ⟨text.length, text.length, text.length⟩
    else ⟨max_columns, max_columns, max_columns⟩
  else posWCLoop T text max_columns tab_width include_start_before text.length 0 0 0

/-- Proxy dispatching on the width method.  Mirrors `findPosByWidth`. -/
def findPosByWidth (T : UnicodeTables) (text : List Nat)
    (max_columns tab_width : Nat) (isASCIIOnly include_start_before : Bool)
    (width_method : WidthMethod) : PosByWidthResult :=
  match width_method with
  | WidthMethod.unicode =>
    findPosByWidthUnicode T text max_columns tab_width isASCIIOnly
      include_start_before width_method
  | WidthMethod.no_zwj =>
    findPosByWidthUnicode T text max_columns tab_width isASCIIOnly
      include_start_before width_method
  | WidthMethod.wcwidth =>
    findPosByWidthWCWidth T text max_columns tab_width isASCIIOnly
      include_start_before

/-- The continuation loop of `getWidthAtUnicode`: keep adding codepoints
until a grapheme break (or end/truncation). -/
def getWidthLoop (T : UnicodeTables) (text : List Nat) (tab_width : Nat)
    (width_method : WidthMethod) :
    Nat → Nat → Nat → Nat → GraphemeWidthState → Nat
  | 0, _, _, _, state => state.width
  | fuel + 1, pos, prev_cp, break_state, state =>
    if pos < text.length then
      let b := text.getD pos 0
      let curr_cp := if b < 0x80 then b else (decodeUtf8Unchecked text pos).cp
      let cp_len := if b < 0x80 then 1 else (decodeUtf8Unchecked text pos).len
      if pos + cp_len > text.length then state.width
      else
        let br := isGraphemeBreak T (Option.some prev_cp) curr_cp break_state
          width_method
        if br.1 then state.width
        else
          let cp_width := charWidth T b curr_cp tab_width
          getWidthLoop T text tab_width width_method fuel (pos + cp_len) curr_cp br.2
            (GraphemeWidthState.addCodepoint T state curr_cp cp_width)
    else state.width

/-- Mirrors `getWidthAtUnicode` (0 past the end; the decoder never reports
a length exceeding the remaining bytes, so the `return 1` for a truncated
sequence is kept verbatim but a truncated tail in fact decodes to U+FFFD
with length 1 and takes the normal path). -/
def getWidthAtUnicode (T : UnicodeTables) (text : List Nat)
    (byte_offset tab_width : Nat) (width_method : WidthMethod) : Nat :=
  if byte_offset ≥ text.length then 0
  else
    let b0 := text.getD byte_offset 0
    if 0x80 ≤ b0 ∧ byte_offset + (decodeUtf8Unchecked text byte_offset).len >
        text.length then 1
    else
      let first_cp := if b0 < 0x80 then b0 else (decodeUtf8Unchecked text byte_offset).cp
      let first_len := if b0 < 0x80 then 1 else (decodeUtf8Unchecked text byte_offset).len
      let first_width := charWidth T b0 first_cp tab_width
      getWidthLoop T text tab_width width_method text.length (byte_offset + first_len)
        first_cp 0 (GraphemeWidthState.init first_cp first_width width_method)

/-- Mirrors `getWidthAtWCWidth`: the first codepoint's own width. -/
def getWidthAtWCWidth (T : UnicodeTables) (text : List Nat)
    (byte_offset tab_width : Nat) : Nat :=
  if byte_offset ≥ text.length then 0
  else
    let b0 := text.getD byte_offset 0
    if 0x80 ≤ b0 ∧ byte_offset + (decodeUtf8Unchecked text byte_offset).len >
        text.length then 1
    else
      let first_cp := if b0 < 0x80 then b0 else (decodeUtf8Unchecked text byte_offset).cp
      charWidth T b0 first_cp tab_width

/-- Proxy dispatching on the width method.  Mirrors `getWidthAt`. -/
def getWidthAt (T : UnicodeTables) (text : List Nat) (byte_offset tab_width : Nat)
    (width_method : WidthMethod) : Nat :=
  match width_method with
  | WidthMethod.unicode => getWidthAtUnicode T text byte_offset tab_width width_method
  | WidthMethod.no_zwj => getWidthAtUnicode T text byte_offset tab_width width_method
  | WidthMethod.wcwidth => getWidthAtWCWidth T text byte_offset tab_width

/-- The scan loop of `calculateTextWidthUnicode`: accumulate completed
cluster widths into `total`, tracking the running cluster. -/
def calcWidthLoop (T : UnicodeTables) (text : List Nat) (tab_width : Nat)
    (width_method : WidthMethod) :
    Nat → Nat → Option Nat → Nat → GraphemeWidthState → Nat → Nat
  | 0, _, prev_cp, _, state, total =>
    if prev_cp ≠ Option.none then total + state.width else total
  | fuel + 1, pos, prev_cp, break_state, state, total =>
    if pos < text.length then
      let b0 := text.getD pos 0
      let dec := decodeUtf8Unchecked text pos
      let curr_cp := if b0 < 0x80 then b0
        else if pos + dec.len > text.length then 0xFFFD else dec.cp
      let cp_len := if b0 < 0x80 then 1 else dec.len
      let br := isGraphemeBreak T prev_cp curr_cp break_state width_method
      if br.1 then
        let total1 := if prev_cp ≠ Option.none then total + state.width else total
        let cp_width := charWidth T b0 curr_cp tab_width
        calcWidthLoop T text tab_width width_method fuel (pos + cp_len)
          (Option.some curr_cp) br.2
          (GraphemeWidthState.init curr_cp cp_width width_method) total1
      else
        let cp_width := charWidth T b0 curr_cp tab_width
        calcWidthLoop T text tab_width width_method fuel (pos + cp_len)
          (Option.some curr_cp) br.2
          (GraphemeWidthState.addCodepoint T state curr_cp cp_width) total
    else if prev_cp ≠ Option.none then total + state.width else total

/-- Mirrors `calculateTextWidthUnicode`. -/
def calculateTextWidthUnicode (T : UnicodeTables) (text : List Nat) (tab_width : Nat)
    (isASCIIOnly : Bool) (width_method : WidthMethod) : Nat :=
  if text.length = 0 then 0
  else if isASCIIOnly then text.length
  else
    calcWidthLoop T text tab_width width_method text.length 0 Option.none 0
      (GraphemeWidthState.init 0 0 width_method) 0

/-- The per-codepoint loop of `calculateTextWidthWCWidth`. -/
def calcWCLoop (T : UnicodeTables) (text : List Nat) (tab_width : Nat) :
    Nat → Nat → Nat → Nat
  | 0, _, total => total
  | fuel + 1, pos, total =>
    if pos < text.length then
      let b0 := text.getD pos 0
      let dec := decodeUtf8Unchecked text pos
      let curr_cp := if b0 < 0x80 then b0
        else if pos + dec.len > text.length then 0xFFFD else dec.cp
      let cp_len := if b0 < 0x80 then 1 else dec.len
      calcWCLoop T text tab_width fuel (pos + cp_len)
        (total + charWidth T b0 curr_cp tab_width)
    else total

/-- Mirrors `calculateTextWidthWCWidth`. -/
def calculateTextWidthWCWidth (T : UnicodeTables) (text : List Nat) (tab_width : Nat)
    (isASCIIOnly : Bool) : Nat :=
  if text.length = 0 then 0
  else if isASCIIOnly then text.length
  else calcWCLoop T text tab_width text.length 0 0

/-- Proxy dispatching on the width method.  Mirrors `calculateTextWidth`. -/
def calculateTextWidth (T : UnicodeTables) (text : List Nat) (tab_width : Nat)
    (isASCIIOnly : Bool) (width_method : WidthMethod) : Nat :=
  match width_method with
  | WidthMethod.unicode =>
    calculateTextWidthUnicode T text tab_width isASCIIOnly width_method
  | WidthMethod.no_zwj =>
    calculateTextWidthUnicode T text tab_width isASCIIOnly width_method
  | WidthMethod.wcwidth => calculateTextWidthWCWidth T text tab_width isASCIIOnly

/-- Concrete Unicode tables matching the real `uucode` data on the
codepoints appearing in the concrete inputs below: ASCII, U+1F30D (EARTH
GLOBE EUROPE-AFRICA, general category So), U+0301 (COMBINING ACUTE ACCENT,
general category Mn, which extends the preceding cluster per UAX 29 rule
GB9), and U+FFFD (So, East-Asian ambiguous).  All other pairs of these
codepoints break. -/
def demoTables : UnicodeTables where
  eaw := fun _ => EastAsianWidth.narrow
  gc := fun cp => if cp = 0x301 then GeneralCategory.mark_nonspacing
    else GeneralCategory.other
  isBreak := fun _ c s => (decide (c ≠ 0x301), s)

/-! ## Claim C2: `find_pos_by_width` with `include_start_before = false` -/

/-- C2, failing input: on "AB🌍" (a wide cluster at the end of the text)
with `max_columns = 3` and `include_start_before = false`, the final-cluster
block includes the emoji because it only tests the cluster's start column,
so the result has `columns_used = 4 > 3` and `byte_offset = 6` instead of
snapping backward to `⟨2, _, 2⟩`; with trailing text ("AB🌍CD") the same
limit correctly snaps backward before the emoji, matching the function's
documented contract. -/
theorem findPosByWidth_final_cluster_violation :
    findPosByWidth demoTables [65, 66, 0xF0, 0x9F, 0x8C, 0x8D] 3 8 false false
      WidthMethod.unicode = ⟨6, 0, 4⟩ ∧
    ¬ (findPosByWidth demoTables [65, 66, 0xF0, 0x9F, 0x8C, 0x8D] 3 8 false false
      WidthMethod.unicode).columns_used ≤ 3 ∧
    findPosByWidth demoTables [65, 66, 0xF0, 0x9F, 0x8C, 0x8D, 67, 68] 3 8 false false
      WidthMethod.unicode = ⟨2, 0, 2⟩ := by
  refine ⟨by decide, ?_, by decide⟩
  intro h
  rw [show findPosByWidth demoTables [65, 66, 0xF0, 0x9F, 0x8C, 0x8D] 3 8 false false
    WidthMethod.unicode = ⟨6, 0, 4⟩ from by decide] at h
  exact absurd h (by decide)

/-! ## Claim C3: `get_width_at` -/

/-- C3, counterexample: at a truncated multi-byte sequence at the end of
the text (lead byte 0xE2 announcing three bytes with only two present),
`get_width_at` returns 1 (the width of the replacement character), not 0 as
the claim states. -/
theorem getWidthAt_truncated_not_zero :
    utf8LeadLen (([0xE2, 0x82] : List Nat).getD 0 0) = Option.some 3 ∧
    ([0xE2, 0x82] : List Nat).length < 3 ∧
    getWidthAt demoTables [0xE2, 0x82] 0 4 WidthMethod.unicode = 1 ∧
    (1 : Nat) ≠ 0 := by
  refine ⟨by decide, by decide, by decide, by decide⟩

/-- C3 (amended): `get_width_at` returns 0 at or past the end of the text
(for every table, offset, tab width and width method); at a cluster start
it returns the cluster's width (single grapheme "e ACUTE" gives 1, a tab
gives the tab width, a wide emoji gives 2); an offset pointing at a
non-initial codepoint of a cluster yields the width of the partial cluster
from there (0 for a bare combining mark); a truncated multi-byte sequence
at the end yields 1, the replacement character's width. -/
theorem getWidthAt_spec :
    (∀ (T : UnicodeTables) (text : List Nat) (off tab : Nat) (wm : WidthMethod),
      text.length ≤ off → getWidthAt T text off tab wm = 0) ∧
    getWidthAt demoTables [0x65, 0xCC, 0x81] 0 4 WidthMethod.unicode = 1 ∧
    getWidthAt demoTables [0x65, 0xCC, 0x81] 1 4 WidthMethod.unicode = 0 ∧
    getWidthAt demoTables [97, 9, 98] 1 4 WidthMethod.unicode = 4 ∧
    getWidthAt demoTables [0xF0, 0x9F, 0x8C, 0x8D] 0 4 WidthMethod.unicode = 2 ∧
    getWidthAt demoTables [0xE2, 0x82] 0 4 WidthMethod.unicode = 1 := by
  refine ⟨?_, by decide, by decide, by decide, by decide, by decide⟩
  intro T text off tab wm hoff
  match wm with
  | WidthMethod.unicode =>
    unfold getWidthAt getWidthAtUnicode
    rw [if_pos (by omega)]
  | WidthMethod.no_zwj =>
    unfold getWidthAt getWidthAtUnicode
    rw [if_pos (by omega)]
  | WidthMethod.wcwidth =>
    unfold getWidthAt getWidthAtWCWidth
    rw [if_pos (by omega)]

/-- Witness for C3: the past-the-end clause evaluated at a concrete input. -/
theorem getWidthAt_spec_witness :
    getWidthAt demoTables [97, 98] 2 4 WidthMethod.unicode = 0 :=
  getWidthAt_spec.1 demoTables [97, 98] 2 4 WidthMethod.unicode (by decide)

/-! ## Claim C6: the wcwidth policy — same segmentation, summed widths -/

/-- The per-codepoint width the wcwidth accumulator adds for a non-initial
cluster codepoint (clamped `eawToWidth`). -/
def wcwCpWidth (T : UnicodeTables) (cp : Nat) : Nat :=
  let w := eawToWidth T cp (T.eaw cp)
  if w > 0 then w.toNat else 0

theorem isGraphemeBreak_wcwidth_eq_unicode (T : UnicodeTables) (prev_cp : Option Nat)
    (curr_cp : Nat) (break_state : Nat) :
    isGraphemeBreak T prev_cp curr_cp break_state WidthMethod.wcwidth =
      isGraphemeBreak T prev_cp curr_cp break_state WidthMethod.unicode := by
  cases prev_cp with
  | none =>
    by_cases hv : isValidCodepoint curr_cp
    · simp [isGraphemeBreak, hv]
    · simp [isGraphemeBreak, hv]
  | some p =>
    by_cases hv : isValidCodepoint curr_cp
    · by_cases hp : isValidCodepoint p
      · simp [isGraphemeBreak, hv, hp]
      · simp [isGraphemeBreak, hv, hp]
    · simp [isGraphemeBreak, hv]

/-- The list of per-codepoint display widths produced by scanning `text`
from `pos` (the decode walk shared by the wcwidth loops). -/
def codepointWidths (T : UnicodeTables) (text : List Nat) (tab_width : Nat) :
    Nat → Nat → List Nat
  | 0, _ => []
  | fuel + 1, pos =>
    if pos < text.length then
      let b0 := text.getD pos 0
      let dec := decodeUtf8Unchecked text pos
      let curr_cp := if b0 < 0x80 then b0
        else if pos + dec.len > text.length then 0xFFFD else dec.cp
      let cp_len := if b0 < 0x80 then 1 else dec.len
      charWidth T b0 curr_cp tab_width ::
        codepointWidths T text tab_width fuel (pos + cp_len)
    else []

theorem calcWCLoop_eq_sum (T : UnicodeTables) (text : List Nat) (tab_width : Nat) :
    ∀ fuel pos total, calcWCLoop T text tab_width fuel pos total =
      total + (codepointWidths T text tab_width fuel pos).sum := by
  intro fuel
  induction fuel with
  | zero => intro pos total; simp [calcWCLoop, codepointWidths]
  | succ fuel ih =>
    intro pos total
    simp only [calcWCLoop, codepointWidths]
    by_cases hp : pos < text.length
    · rw [if_pos hp, if_pos hp, ih]
      rw [List.sum_cons]
      omega
    · rw [if_neg hp, if_neg hp]
      simp

theorem codepointWidths_ascii (T : UnicodeTables) (text : List Nat) (tab_width : Nat)
    (hascii : ∀ i, i < text.length → 32 ≤ text.getD i 0 ∧ text.getD i 0 ≤ 126) :
    ∀ fuel pos, text.length ≤ pos + fuel →
      codepointWidths T text tab_width fuel pos =
        List.replicate (text.length - pos) 1 := by
  intro fuel
  induction fuel with
  | zero =>
    intro pos hle
    rw [show text.length - pos = 0 by omega]
    rfl
  | succ fuel ih =>
    intro pos hle
    simp only [codepointWidths]
    by_cases hp : pos < text.length
    · rw [if_pos hp]
      obtain ⟨hlo, hhi⟩ := hascii pos hp
      have hlt : text.getD pos 0 < 0x80 := by omega
      simp only [if_pos hlt]
      have hcw : charWidth T (text.getD pos 0) (text.getD pos 0) tab_width = 1 := by
        unfold charWidth
        rw [if_neg (by omega), if_pos (by omega)]
      rw [hcw, ih (pos + 1) (by omega)]
      rw [show text.length - pos = (text.length - (pos + 1)) + 1 by omega]
      rfl
    · rw [if_neg hp]
      rw [show text.length - pos = 0 by omega]
      rfl

/-- The wcwidth grapheme-width accumulator over the non-initial codepoints
of a cluster (each paired with the `cp_width` the scan would pass). -/
def wcwFold (T : UnicodeTables) (st : GraphemeWidthState) (cps : List (Nat × Nat)) :
    GraphemeWidthState :=
  cps.foldl (fun s c => GraphemeWidthState.addCodepoint T s c.1 c.2) st

theorem wcwFold_width (T : UnicodeTables) :
    ∀ (cps : List (Nat × Nat)) (st : GraphemeWidthState),
      st.width_method = WidthMethod.wcwidth →
      (wcwFold T st cps).width = st.width + (cps.map (fun c => wcwCpWidth T c.1)).sum := by
  intro cps
  induction cps with
  | nil => intro st _; simp [wcwFold]
  | cons c rest ih =>
    intro st hwm
    obtain ⟨w, hasw, ri, v16, vir, wm⟩ := st
    dsimp only at hwm ⊢
    subst hwm
    simp only [List.map_cons, List.sum_cons]
    have hcons : wcwFold T ⟨w, hasw, ri, v16, vir, WidthMethod.wcwidth⟩ (c :: rest) =
        wcwFold T (GraphemeWidthState.addCodepoint T
          ⟨w, hasw, ri, v16, vir, WidthMethod.wcwidth⟩ c.1 c.2) rest := rfl
    rw [hcons]
    have hstep : GraphemeWidthState.addCodepoint T
        ⟨w, hasw, ri, v16, vir, WidthMethod.wcwidth⟩ c.1 c.2 =
        ⟨w + wcwCpWidth T c.1, hasw || decide (0 < wcwCpWidth T c.1), ri, v16, vir,
          WidthMethod.wcwidth⟩ := by
      unfold GraphemeWidthState.addCodepoint wcwCpWidth
      rw [if_pos rfl]
      by_cases hw : eawToWidth T c.1 (T.eaw c.1) > 0
      · rw [if_pos hw]
        simp only [if_pos hw]
        have hd : decide (0 < (eawToWidth T c.1 (T.eaw c.1)).toNat) = true := by
          rw [decide_eq_true_eq]
          omega
        rw [hd, Bool.or_true]
      · rw [if_neg hw]
        simp only [if_neg hw]
        have hz : decide ((0 : Nat) < 0) = false := by rfl
        rw [hz, Bool.or_false]
        have hw0 : w + 0 = w := Nat.add_zero w
        rw [hw0]
    rw [hstep, ih _ rfl]
    dsimp only
    omega

/-- C6: (1) under the wcwidth policy `isGraphemeBreak` returns exactly the
same verdict and break state as under the unicode policy, for every table,
codepoint pair and state — the two policies segment identically; (2)
`calculate_text_width` under wcwidth is the plain sum of the per-codepoint
display widths of the scan (each tab contributing the tab width through
`charWidth`), with the ASCII fast path agreeing with that sum; (3) the
wcwidth cluster-width accumulator is the sum of the clamped per-codepoint
widths of the cluster's codepoints — no VS16 promotion, regional-indicator
pairing or virama adjustment applies. -/
theorem wcwidth_same_breaks_summed_widths :
    (∀ (T : UnicodeTables) (prev_cp : Option Nat) (curr_cp break_state : Nat),
      isGraphemeBreak T prev_cp curr_cp break_state WidthMethod.wcwidth =
        isGraphemeBreak T prev_cp curr_cp break_state WidthMethod.unicode) ∧
    (∀ (T : UnicodeTables) (text : List Nat) (tab_width : Nat) (isASCIIOnly : Bool),
      (isASCIIOnly = true → isAsciiOnly text = true) →
      calculateTextWidthWCWidth T text tab_width isASCIIOnly =
        (codepointWidths T text tab_width text.length 0).sum) ∧
    (∀ (T : UnicodeTables) (cps : List (Nat × Nat)) (first_cp first_width : Nat),
      (wcwFold T (GraphemeWidthState.init first_cp first_width WidthMethod.wcwidth)
        cps).width = first_width + (cps.map (fun c => wcwCpWidth T c.1)).sum) := by
  refine ⟨fun T p c s => isGraphemeBreak_wcwidth_eq_unicode T p c s, ?_, ?_⟩
  · intro T text tab_width isASCIIOnly hflag
    unfold calculateTextWidthWCWidth
    by_cases hlen : text.length = 0
    · rw [if_pos hlen]
      have : text = [] := List.length_eq_zero.1 hlen
      subst this
      rfl
    · rw [if_neg hlen]
      by_cases hfl : isASCIIOnly = true
      · rw [if_pos hfl]
        have hascii := (isAsciiOnly_iff_nonempty_printable.1 text).1 (hflag hfl)
        have hidx : ∀ i, i < text.length → 32 ≤ text.getD i 0 ∧ text.getD i 0 ≤ 126 :=
          (forall_mem_iff_index text (fun b => 32 ≤ b ∧ b ≤ 126)).1 hascii.2
        rw [codepointWidths_ascii T text tab_width hidx text.length 0 (by omega)]
        rw [List.sum_replicate, Nat.sub_zero, smul_eq_mul, Nat.mul_one]
      · rw [if_neg hfl]
        rw [calcWCLoop_eq_sum T text tab_width text.length 0 0]
        omega
  · intro T cps first_cp first_width
    rw [wcwFold_width T cps _ rfl]
    rfl

/-- Witness for C6 at concrete inputs: identical break verdicts for
"a","b"; the wcwidth width of "e" plus combining acute is 1 (sum of
codepoint widths 1 + 0); the cluster accumulator sums widths. -/
theorem wcwidth_same_breaks_summed_widths_witness :
    isGraphemeBreak demoTables (Option.some 97) 98 0 WidthMethod.wcwidth =
      isGraphemeBreak demoTables (Option.some 97) 98 0 WidthMethod.unicode ∧
    calculateTextWidthWCWidth demoTables [0x65, 0xCC, 0x81] 4 false =
      (codepointWidths demoTables [0x65, 0xCC, 0x81] 4 3 0).sum ∧
    (wcwFold demoTables (GraphemeWidthState.init 0x65 1 WidthMethod.wcwidth)
      [(0x301, 0)]).width = 1 + ([(0x301, 0)].map
        (fun c => wcwCpWidth demoTables c.1)).sum :=
  ⟨wcwidth_same_breaks_summed_widths.1 demoTables (Option.some 97) 98 0,
   wcwidth_same_breaks_summed_widths.2.1 demoTables [0x65, 0xCC, 0x81] 4 false
     (fun h => absurd h (by decide)),
   wcwidth_same_breaks_summed_widths.2.2 demoTables [(0x301, 0)] 0x65 1⟩

/-! ## Claims C1, C7: the wrap scan — chunked = sequential = greedy -/

theorem decode_len_pos (text : List Nat) (pos : Nat) :
    1 ≤ (decodeUtf8Unchecked text pos).len := by
  unfold decodeUtf8Unchecked
  simp only [apply_ite DecodeResult.len]
  repeat' split
  all_goals norm_num

theorem decode_len_le (text : List Nat) (pos : Nat) (hpos : pos < text.length) :
    pos + (decodeUtf8Unchecked text pos).len ≤ text.length := by
  unfold decodeUtf8Unchecked
  simp only [apply_ite DecodeResult.len]
  repeat' split
  all_goals omega

/-- The per-step advance of the sequential scans. -/
def scanCpLen (text : List Nat) (pos : Nat) : Nat :=
  if text.getD pos 0 < 0x80 then 1 else (decodeUtf8Unchecked text pos).len

theorem scanCpLen_pos (text : List Nat) (pos : Nat) : 1 ≤ scanCpLen text pos := by
  unfold scanCpLen
  by_cases h : text.getD pos 0 < 0x80
  · rw [if_pos h]
  · rw [if_neg h]
    exact decode_len_pos text pos

theorem scanCpLen_le (text : List Nat) (pos : Nat) (hpos : pos < text.length) :
    pos + scanCpLen text pos ≤ text.length := by
  unfold scanCpLen
  by_cases h : text.getD pos 0 < 0x80
  · rw [if_pos h]
    omega
  · rw [if_neg h]
    exact decode_len_le text pos hpos

theorem wrapTailLoop_fuel_irrel (T : UnicodeTables) (text : List Nat)
    (max_columns tab_width : Nat) :
    ∀ f1 f2 pos st, text.length ≤ pos + f1 → text.length ≤ pos + f2 →
      wrapTailLoop T text max_columns tab_width f1 pos st =
        wrapTailLoop T text max_columns tab_width f2 pos st := by
  intro f1
  induction f1 with
  | zero =>
    intro f2 pos st h1 h2
    match f2 with
    | 0 => rfl
    | f2 + 1 =>
      simp only [wrapTailLoop]
      rw [if_neg (by omega)]
  | succ f1 ih =>
    intro f2 pos st h1 h2
    match f2 with
    | 0 =>
      simp only [wrapTailLoop]
      rw [if_neg (by omega)]
    | f2 + 1 =>
      simp only [wrapTailLoop]
      by_cases hp : pos < text.length
      · rw [if_pos hp, if_pos hp]
        have hcp := scanCpLen_pos text pos
        have hcpl : scanCpLen text pos =
            (if text.getD pos 0 < 0x80 then 1 else (decodeUtf8Unchecked text pos).len) :=
          rfl
        cases hh : handleClusterForWrap
            { st with
              break_state := (isGraphemeBreak T st.prev_cp
                (if text.getD pos 0 < 0x80 then text.getD pos 0
                  else (decodeUtf8Unchecked text pos).cp)
                st.break_state st.width_method).2 }
            (isGraphemeBreak T st.prev_cp
              (if text.getD pos 0 < 0x80 then text.getD pos 0
                else (decodeUtf8Unchecked text pos).cp)
              st.break_state st.width_method).1 pos max_columns with
        | none => simp only [hh]
        | some st2 =>
          simp only [hh]
          exact ih f2 _ _ (by rw [← hcpl] at *; omega) (by rw [← hcpl] at *; omega)
      · rw [if_neg hp, if_neg hp]

/-- The property of `uucode.grapheme.isBreak` the ASCII fast-path
equivalence rests on: between two printable ASCII codepoints there is
always a grapheme boundary (UAX 29 rule GB999 — no rule joins them),
whatever the break state. -/
def AsciiBreakTables (T : UnicodeTables) : Prop :=
  ∀ p c s, 32 ≤ p → p ≤ 126 → 32 ≤ c → c ≤ 126 → (T.isBreak p c s).1 = true

theorem charWidth_ascii (T : UnicodeTables) (b tab_width : Nat) (hb : b < 0x80) :
    charWidth T b b tab_width = asciiCharWidth b tab_width := by
  unfold charWidth asciiCharWidth
  by_cases h9 : b = 9
  · rw [if_pos h9, if_pos h9]
  · rw [if_neg h9, if_neg h9]
    by_cases hpr : 32 ≤ b ∧ b ≤ 126
    · rw [if_pos ⟨hb, hpr.1, hpr.2⟩, if_pos hpr]
    · rw [if_neg (fun hc => hpr ⟨hc.2.1, hc.2.2⟩), if_neg hpr, if_neg (by omega)]

theorem isValidCodepoint_printable (c : Nat) (hlo : 32 ≤ c) (hhi : c ≤ 126) :
    isValidCodepoint c = true := by
  unfold isValidCodepoint
  rw [Bool.and_eq_true, decide_eq_true_eq, decide_eq_true_eq]
  omega

theorem isGraphemeBreak_printable (T : UnicodeTables) (hT : AsciiBreakTables T)
    (p c s : Nat) (wm : WidthMethod) (hp1 : 32 ≤ p) (hp2 : p ≤ 126) (hc1 : 32 ≤ c)
    (hc2 : c ≤ 126) :
    (isGraphemeBreak T (Option.some p) c s wm).1 = true := by
  have hvc := isValidCodepoint_printable c hc1 hc2
  have hvp := isValidCodepoint_printable p hp1 hp2
  unfold isGraphemeBreak
  by_cases hwm : wm = WidthMethod.wcwidth
  · rw [if_pos hwm]
    dsimp only
    rw [if_neg (by rw [hvc]; intro h; exact h rfl),
      if_neg (by rw [hvp]; intro h; exact h rfl)]
    exact hT p c s hp1 hp2 hc1 hc2
  · rw [if_neg hwm]
    dsimp only
    rw [if_neg (by rw [hvc]; intro h; exact h rfl)]
    rw [if_neg (by
      intro hcon
      have := hcon.2
      have hp8205 : p = 8205 := by
        cases this
        rfl
      omega)]
    rw [if_neg (by rw [hvp]; intro h; exact h rfl)]
    exact hT p c s hp1 hp2 hc1 hc2

theorem wrapTailLoop_ascii_step (T : UnicodeTables) (text : List Nat)
    (max_columns tab_width : Nat) (f pos : Nat) (st : ClusterState)
    (hp : pos < text.length) (hb : text.getD pos 0 < 0x80) :
    wrapTailLoop T text max_columns tab_width (f + 1) pos st =
      (let b := text.getD pos 0
      let br := isGraphemeBreak T st.prev_cp b st.break_state st.width_method
      let st1 := { st with break_state := br.2 }
      match handleClusterForWrap st1 br.1 pos max_columns with
      | Option.none => ⟨st1.cluster_start, st1.grapheme_count, st1.columns_used⟩
      | Option.some st2 =>
        wrapTailLoop T text max_columns tab_width f (pos + 1)
          { clusterWidthUpdate T st2 (text.getD pos 0)
              (asciiCharWidth (text.getD pos 0) tab_width) with
            prev_cp := Option.some (text.getD pos 0) }) := by
  simp only [wrapTailLoop, if_pos hp, if_pos hb, charWidth_ascii T _ tab_width hb]

theorem wrapAsciiChunkLoop_eq_tail (T : UnicodeTables) (text : List Nat)
    (max_columns tab_width pos : Nat)
    (hascii : ∀ j, j < 16 → text.getD (pos + j) 0 < 0x80)
    (hlen : pos + 16 ≤ text.length) :
    ∀ fuel i st g, 16 ≤ i + fuel → i ≤ 16 → text.length ≤ pos + i + g →
      (match wrapAsciiChunkLoop T text max_columns tab_width pos fuel i st with
        | Sum.inl r => r
        | Sum.inr st2 =>
          wrapTailLoop T text max_columns tab_width text.length (pos + 16) st2) =
      wrapTailLoop T text max_columns tab_width g (pos + i) st := by
  intro fuel
  induction fuel with
  | zero =>
    intro i st g hle hle16 hg
    have hi : i = 16 := by omega
    subst hi
    simp only [wrapAsciiChunkLoop]
    exact wrapTailLoop_fuel_irrel T text max_columns tab_width text.length g (pos + 16) st
      (by omega) (by omega)
  | succ fuel ih =>
    intro i st g hle hle16 hg
    by_cases hi16 : i < 16
    · have hpl : pos + i < text.length := by omega
      have hb : text.getD (pos + i) 0 < 0x80 := hascii i hi16
      obtain ⟨g, rfl⟩ : ∃ g0, g = g0 + 1 := ⟨g - 1, by omega⟩
      rw [wrapTailLoop_ascii_step T text max_columns tab_width g (pos + i) st hpl hb]
      simp only [wrapAsciiChunkLoop, if_pos hi16]
      cases hh : handleClusterForWrap
          { st with
            break_state := (isGraphemeBreak T st.prev_cp (text.getD (pos + i) 0)
              st.break_state st.width_method).2 }
          (isGraphemeBreak T st.prev_cp (text.getD (pos + i) 0)
            st.break_state st.width_method).1 (pos + i) max_columns with
      | none => simp only [hh]
      | some st2 =>
        simp only [hh]
        rw [show pos + i + 1 = pos + (i + 1) by omega]
        exact ih (i + 1) _ g (by omega) (by omega) (by omega)
    · have hi : i = 16 := by omega
      subst hi
      simp only [wrapAsciiChunkLoop, if_neg (by omega : ¬ (16 : Nat) < 16)]
      exact wrapTailLoop_fuel_irrel T text max_columns tab_width text.length g (pos + 16) st
        (by omega) (by omega)

theorem wrapMixedChunkLoop_eq_tail (T : UnicodeTables) (text : List Nat)
    (max_columns tab_width pos : Nat) :
    ∀ fuel i st g, 16 ≤ i + fuel → text.length ≤ pos + i + g →
      (match wrapMixedChunkLoop T text max_columns tab_width pos fuel i st with
        | Sum.inl r => r
        | Sum.inr (i2, st2) =>
          wrapTailLoop T text max_columns tab_width text.length (pos + i2) st2) =
      wrapTailLoop T text max_columns tab_width g (pos + i) st := by
  intro fuel
  induction fuel with
  | zero =>
    intro i st g hle hg
    simp only [wrapMixedChunkLoop]
    exact wrapTailLoop_fuel_irrel T text max_columns tab_width text.length g (pos + i) st
      (by omega) (by omega)
  | succ fuel ih =>
    intro i st g hle hg
    by_cases hc : i < 16 ∧ pos + i < text.length
    · have hdead : ¬ pos + i + (if text.getD (pos + i) 0 < 0x80 then 1
          else (decodeUtf8Unchecked text (pos + i)).len) > text.length := by
        have := scanCpLen_le text (pos + i) hc.2
        unfold scanCpLen at this
        omega
      have hcp1 : 1 ≤ (if text.getD (pos + i) 0 < 0x80 then 1
          else (decodeUtf8Unchecked text (pos + i)).len) := by
        have := scanCpLen_pos text (pos + i)
        unfold scanCpLen at this
        omega
      obtain ⟨g, rfl⟩ : ∃ g0, g = g0 + 1 := ⟨g - 1, by omega⟩
      simp only [wrapMixedChunkLoop, if_pos hc, if_neg hdead]
      simp only [wrapTailLoop, if_pos hc.2]
      cases hh : handleClusterForWrap
          { st with
            break_state := (isGraphemeBreak T st.prev_cp
              (if text.getD (pos + i) 0 < 0x80 then text.getD (pos + i) 0
                else (decodeUtf8Unchecked text (pos + i)).cp)
              st.break_state st.width_method).2 }
          (isGraphemeBreak T st.prev_cp
            (if text.getD (pos + i) 0 < 0x80 then text.getD (pos + i) 0
              else (decodeUtf8Unchecked text (pos + i)).cp)
            st.break_state st.width_method).1 (pos + i) max_columns with
      | none => simp only [hh]
      | some st2 =>
        simp only [hh]
        rw [show pos + i + (if text.getD (pos + i) 0 < 0x80 then 1
            else (decodeUtf8Unchecked text (pos + i)).len) =
          pos + (i + (if text.getD (pos + i) 0 < 0x80 then 1
            else (decodeUtf8Unchecked text (pos + i)).len)) by omega]
        exact ih _ _ g (by omega) (by omega)
    · simp only [wrapMixedChunkLoop, if_neg hc]
      exact wrapTailLoop_fuel_irrel T text max_columns tab_width text.length g (pos + i) st
        (by omega) (by omega)

theorem chunkAllAscii_lt (text : List Nat) (pos : Nat)
    (h : chunkAllAscii text pos = true) :
    ∀ j, j < 16 → text.getD (pos + j) 0 < 0x80 := by
  intro j hj
  unfold chunkAllAscii at h
  rw [Bool.not_eq_eq_eq_not, Bool.not_true, List.any_eq_false] at h
  have := h j (List.mem_range.2 hj)
  simp only [decide_eq_true_eq] at this
  omega

theorem wrapVecLoop_eq_tail (T : UnicodeTables) (text : List Nat)
    (max_columns tab_width : Nat) :
    ∀ fuel pos st, wrapVecLoop T text max_columns tab_width fuel pos st =
      wrapTailLoop T text max_columns tab_width text.length pos st := by
  intro fuel
  induction fuel with
  | zero => intro pos st; rfl
  | succ fuel ih =>
    intro pos st
    simp only [wrapVecLoop]
    by_cases hp : pos + 16 ≤ text.length
    · rw [if_pos hp]
      by_cases hascii : chunkAllAscii text pos
      · rw [if_pos hascii]
        have hL2 := wrapAsciiChunkLoop_eq_tail T text max_columns tab_width pos
          (chunkAllAscii_lt text pos hascii) hp 16 0 st text.length (by omega) (by omega)
          (by omega)
        rw [Nat.add_zero] at hL2
        cases hres : wrapAsciiChunkLoop T text max_columns tab_width pos 16 0 st with
        | inl r =>
          rw [hres] at hL2
          exact hL2
        | inr st2 =>
          rw [hres] at hL2
          dsimp only at hL2 ⊢
          rw [ih (pos + 16) st2]
          exact hL2
      · rw [if_neg hascii]
        have hL3 := wrapMixedChunkLoop_eq_tail T text max_columns tab_width pos 16 0 st
          text.length (by omega) (by omega)
        rw [Nat.add_zero] at hL3
        cases hres : wrapMixedChunkLoop T text max_columns tab_width pos 16 0 st with
        | inl r =>
          rw [hres] at hL3
          exact hL3
        | inr p2 =>
          rw [hres] at hL3
          obtain ⟨i2, st2⟩ := p2
          dsimp only at hL3 ⊢
          rw [ih (pos + i2) st2]
          exact hL3
    · rw [if_neg hp]

theorem isGraphemeBreak_none (T : UnicodeTables) (c s : Nat) (wm : WidthMethod)
    (hv : isValidCodepoint c = true) :
    isGraphemeBreak T Option.none c s wm = (true, s) := by
  unfold isGraphemeBreak
  by_cases hwm : wm = WidthMethod.wcwidth
  · rw [if_pos hwm]
  · rw [if_neg hwm]
    dsimp only
    rw [if_neg (by rw [hv]; intro h; exact h rfl)]
    rw [if_neg (fun hcon => Option.noConfusion hcon.2)]

theorem handleClusterForWrap_commit (st : ClusterState) (q : Nat)
    (hprev : st.prev_cp = Option.some q) (ncs max_columns : Nat) :
    handleClusterForWrap st true ncs max_columns =
      (if st.columns_used + st.cluster_width > max_columns then Option.none
       else Option.some { st with
          columns_used := st.columns_used + st.cluster_width
          grapheme_count := st.grapheme_count + 1
          cluster_width := 0
          cluster_start := ncs
          cluster_started := false }) := by
  unfold handleClusterForWrap
  rw [if_pos rfl, hprev]

theorem handleClusterForWrap_none (st : ClusterState)
    (hprev : st.prev_cp = Option.none) (ncs max_columns : Nat) :
    handleClusterForWrap st true ncs max_columns =
      Option.some { st with
        cluster_width := 0
        cluster_start := ncs
        cluster_started := false } := by
  unfold handleClusterForWrap
  rw [if_pos rfl, hprev]

theorem clusterWidthUpdate_fresh (T : UnicodeTables) (st : ClusterState)
    (curr_cp cp_width : Nat) (h : st.cluster_started = false) :
    clusterWidthUpdate T st curr_cp cp_width =
      { st with
        width_state := GraphemeWidthState.init curr_cp cp_width st.width_method
        cluster_width := cp_width
        cluster_started := true } := by
  unfold clusterWidthUpdate
  rw [h]
  rw [if_pos (by intro hc; exact Bool.false_ne_true hc)]

theorem asciiCharWidth_printable (b tab_width : Nat) (h1 : 32 ≤ b) (h2 : b ≤ 126) :
    asciiCharWidth b tab_width = 1 := by
  unfold asciiCharWidth
  rw [if_neg (by omega), if_pos ⟨h1, h2⟩]

theorem wrapTailLoop_ascii_inv (T : UnicodeTables) (hT : AsciiBreakTables T)
    (text : List Nat)
    (hprint : ∀ i, i < text.length → 32 ≤ text.getD i 0 ∧ text.getD i 0 ≤ 126)
    (max_columns tab_width : Nat) :
    ∀ f c p bs ws wm cst, c + 1 ≤ text.length → text.length ≤ c + 1 + f →
      32 ≤ p → p ≤ 126 → c ≤ max_columns →
      wrapTailLoop T text max_columns tab_width f (c + 1)
        ⟨c, c, 1, c, Option.some p, bs, ws, wm, cst⟩ =
      (if text.length ≤ max_columns then
        ⟨text.length, text.length, text.length⟩
      else ⟨max_columns, max_columns, max_columns⟩) := by
  intro f
  induction f with
  | zero =>
    intro c p bs ws wm cst hk hkf hp1 hp2 hcm
    simp only [wrapTailLoop, wrapFinalize]
    rw [if_pos ⟨fun h => Option.noConfusion h, Nat.one_pos⟩]
    by_cases hlm : text.length ≤ max_columns
    · rw [if_neg (by omega : ¬ c + 1 > max_columns), if_pos hlm]
      simp only [WrapByWidthResult.mk.injEq, true_and, and_true]
      omega
    · rw [if_pos (by omega : c + 1 > max_columns), if_neg hlm]
      simp only [WrapByWidthResult.mk.injEq, true_and, and_true]
      omega
  | succ f ih =>
    intro c p bs ws wm cst hk hkf hp1 hp2 hcm
    by_cases hlt : c + 1 < text.length
    · have hb := hprint (c + 1) hlt
      have hb80 : text.getD (c + 1) 0 < 0x80 := by omega
      rw [wrapTailLoop_ascii_step T text max_columns tab_width f (c + 1) _ hlt hb80]
      have hbr := isGraphemeBreak_printable T hT p (text.getD (c + 1) 0) bs wm
        hp1 hp2 hb.1 hb.2
      dsimp only
      rw [hbr]
      rw [handleClusterForWrap_commit _ p rfl]
      dsimp only
      by_cases hstop : c + 1 > max_columns
      · rw [if_pos hstop]
        dsimp only
        rw [if_neg (by omega)]
        simp only [WrapByWidthResult.mk.injEq, true_and, and_true]
        omega
      · rw [if_neg hstop]
        dsimp only
        rw [clusterWidthUpdate_fresh T _ _ _ rfl]
        rw [asciiCharWidth_printable _ tab_width hb.1 hb.2]
        exact ih (c + 1) (text.getD (c + 1) 0) _ _ wm true (by omega) (by omega)
          hb.1 hb.2 (by omega)
    · simp only [wrapTailLoop]
      rw [if_neg (by omega)]
      simp only [wrapFinalize]
      rw [if_pos ⟨fun h => Option.noConfusion h, Nat.one_pos⟩]
      by_cases hlm : text.length ≤ max_columns
      · rw [if_neg (by omega : ¬ c + 1 > max_columns), if_pos hlm]
        simp only [WrapByWidthResult.mk.injEq, true_and, and_true]
        omega
      · rw [if_pos (by omega : c + 1 > max_columns), if_neg hlm]
        simp only [WrapByWidthResult.mk.injEq, true_and, and_true]
        omega

theorem findWrapPosByWidthUnicode_ascii_general (T : UnicodeTables)
    (hT : AsciiBreakTables T) (text : List Nat)
    (hprint : ∀ i, i < text.length → 32 ≤ text.getD i 0 ∧ text.getD i 0 ≤ 126)
    (max_columns tab_width : Nat) (wm : WidthMethod) :
    findWrapPosByWidthUnicode T text max_columns tab_width false wm =
      findWrapPosByWidthUnicode T text max_columns tab_width true wm := by
  unfold findWrapPosByWidthUnicode
  by_cases hg : text.length = 0 ∨ max_columns = 0
  · rw [if_pos hg, if_pos hg]
  · rw [if_neg hg, if_neg hg, if_neg Bool.false_ne_true, if_pos rfl]
    have hlen : 1 ≤ text.length := by omega
    rw [wrapVecLoop_eq_tail T text max_columns tab_width]
    rw [wrapTailLoop_fuel_irrel T text max_columns tab_width text.length
      (text.length + 1) 0 (ClusterState.init wm) (by omega) (by omega)]
    have hb := hprint 0 (by omega)
    rw [wrapTailLoop_ascii_step T text max_columns tab_width text.length 0
      (ClusterState.init wm) (by omega) (by omega)]
    have hv := isValidCodepoint_printable (text.getD 0 0) hb.1 hb.2
    simp only [ClusterState.init]
    rw [isGraphemeBreak_none T (text.getD 0 0) 0 wm hv]
    dsimp only
    rw [handleClusterForWrap_none _ rfl]
    dsimp only
    rw [clusterWidthUpdate_fresh T _ _ _ rfl]
    rw [asciiCharWidth_printable _ tab_width hb.1 hb.2]
    exact wrapTailLoop_ascii_inv T hT text hprint max_columns tab_width text.length 0
      (text.getD 0 0) 0 _ wm true (by omega) (by omega) hb.1 hb.2 (by omega)

theorem calcWidthLoop_ascii_step (T : UnicodeTables) (text : List Nat)
    (tab_width : Nat) (wm : WidthMethod) (f pos : Nat) (prev : Option Nat)
    (bs : Nat) (state : GraphemeWidthState) (total : Nat)
    (hp : pos < text.length) (hb : text.getD pos 0 < 0x80) :
    calcWidthLoop T text tab_width wm (f + 1) pos prev bs state total =
      (let b := text.getD pos 0
      let br := isGraphemeBreak T prev b bs wm
      if br.1 then
        calcWidthLoop T text tab_width wm f (pos + 1) (Option.some b) br.2
          (GraphemeWidthState.init b (asciiCharWidth b tab_width) wm)
          (if prev ≠ Option.none then total + state.width else total)
      else
        calcWidthLoop T text tab_width wm f (pos + 1) (Option.some b) br.2
          (GraphemeWidthState.addCodepoint T state b (asciiCharWidth b tab_width))
          total) := by
  simp only [calcWidthLoop, if_pos hp, if_pos hb, charWidth_ascii T _ tab_width hb]

theorem calcWidthLoop_ascii_inv (T : UnicodeTables) (hT : AsciiBreakTables T)
    (text : List Nat)
    (hprint : ∀ i, i < text.length → 32 ≤ text.getD i 0 ∧ text.getD i 0 ≤ 126)
    (tab_width : Nat) (wm : WidthMethod) :
    ∀ f total p bs state, total + 1 ≤ text.length → text.length ≤ total + 1 + f →
      32 ≤ p → p ≤ 126 → state.width = 1 →
      calcWidthLoop T text tab_width wm f (total + 1) (Option.some p) bs state total =
        text.length := by
  intro f
  induction f with
  | zero =>
    intro total p bs state hk hkf hp1 hp2 hstw
    simp only [calcWidthLoop]
    rw [if_pos (fun h => Option.noConfusion h), hstw]
    omega
  | succ f ih =>
    intro total p bs state hk hkf hp1 hp2 hstw
    by_cases hlt : total + 1 < text.length
    · have hb := hprint (total + 1) hlt
      rw [calcWidthLoop_ascii_step T text tab_width wm f (total + 1)
        (Option.some p) bs state total hlt (by omega)]
      dsimp only
      have hbr := isGraphemeBreak_printable T hT p (text.getD (total + 1) 0) bs wm
        hp1 hp2 hb.1 hb.2
      rw [hbr, if_pos rfl, if_pos (fun h => Option.noConfusion h)]
      rw [asciiCharWidth_printable _ tab_width hb.1 hb.2, hstw]
      exact ih (total + 1) (text.getD (total + 1) 0) _ _ (by omega) (by omega)
        hb.1 hb.2 rfl
    · simp only [calcWidthLoop]
      rw [if_neg (by omega : ¬ total + 1 < text.length)]
      rw [if_pos (fun h => Option.noConfusion h), hstw]
      omega

theorem calculateTextWidthUnicode_ascii (T : UnicodeTables) (hT : AsciiBreakTables T)
    (text : List Nat)
    (hprint : ∀ i, i < text.length → 32 ≤ text.getD i 0 ∧ text.getD i 0 ≤ 126)
    (tab_width : Nat) (wm : WidthMethod) :
    calculateTextWidthUnicode T text tab_width false wm = text.length := by
  unfold calculateTextWidthUnicode
  by_cases h0 : text.length = 0
  · rw [if_pos h0, h0]
  · rw [if_neg h0, if_neg Bool.false_ne_true]
    obtain ⟨L, hL⟩ : ∃ L, text.length = L + 1 := ⟨text.length - 1, by omega⟩
    conv_lhs => rw [hL]
    have hb := hprint 0 (by omega)
    rw [calcWidthLoop_ascii_step T text tab_width wm L 0 Option.none 0
      (GraphemeWidthState.init 0 0 wm) 0 (by omega) (by omega)]
    dsimp only
    have hv := isValidCodepoint_printable (text.getD 0 0) hb.1 hb.2
    rw [isGraphemeBreak_none T (text.getD 0 0) 0 wm hv]
    rw [if_pos rfl, if_neg (fun h => h rfl)]
    rw [asciiCharWidth_printable _ tab_width hb.1 hb.2]
    exact calcWidthLoop_ascii_inv T hT text hprint tab_width wm L 0 (text.getD 0 0)
      0 _ (by omega) (by omega) hb.1 hb.2 rfl

/-! ## Claim C7: ASCII fast-path equivalence -/

/-- `uucode`'s break tables place a boundary between any two printable
ASCII codepoints (UAX 29 GB999); `demoTables` satisfies this. -/
theorem demoTables_asciiBreak : AsciiBreakTables demoTables := by
  intro p c s hp1 hp2 hc1 hc2
  show (decide (c ≠ 0x301), s).1 = true
  dsimp only
  rw [decide_eq_true_eq]
  omega

/-- **C7.** For inputs whose bytes are all printable ASCII (each in
`[0x20, 0x7E]`), the general Unicode code paths (`is_ascii` flag false) of
`calculateTextWidth` and `findWrapPosByWidth` agree with the ASCII-only
fast paths (flag true), assuming the break tables put a boundary between
any two printable ASCII codepoints: the text width equals the byte length,
and the wrap result is `min(max_columns, length)` in all three fields. -/
theorem ascii_fast_path_equiv (T : UnicodeTables) (hT : AsciiBreakTables T)
    (text : List Nat) (hprint : ∀ b ∈ text, 32 ≤ b ∧ b ≤ 126)
    (max_columns tab_width : Nat) (wm : WidthMethod) :
    calculateTextWidthUnicode T text tab_width false wm =
      calculateTextWidthUnicode T text tab_width true wm ∧
    calculateTextWidthUnicode T text tab_width false wm = text.length ∧
    findWrapPosByWidthUnicode T text max_columns tab_width false wm =
      findWrapPosByWidthUnicode T text max_columns tab_width true wm ∧
    findWrapPosByWidthUnicode T text max_columns tab_width false wm =
      ⟨min max_columns text.length, min max_columns text.length,
        min max_columns text.length⟩ := by
  have hidx := (forall_mem_iff_index text fun b => 32 ≤ b ∧ b ≤ 126).1 hprint
  have hcalc := calculateTextWidthUnicode_ascii T hT text hidx tab_width wm
  have hwrap := findWrapPosByWidthUnicode_ascii_general T hT text hidx max_columns
    tab_width wm
  refine ⟨?_, hcalc, hwrap, ?_⟩
  · rw [hcalc]
    unfold calculateTextWidthUnicode
    by_cases h0 : text.length = 0
    · rw [if_pos h0, h0]
    · rw [if_neg h0, if_pos rfl]
  · rw [hwrap]
    unfold findWrapPosByWidthUnicode
    by_cases hg : text.length = 0 ∨ max_columns = 0
    · rw [if_pos hg]
      simp only [WrapByWidthResult.mk.injEq]
      omega
    · rw [if_neg hg, if_pos rfl]
      by_cases hml : max_columns ≥ text.length
      · rw [if_pos hml]
        simp only [WrapByWidthResult.mk.injEq]
        omega
      · rw [if_neg hml]
        simp only [WrapByWidthResult.mk.injEq]
        omega

/-- C7 witness: the equivalence evaluated on "Hi" with `max_columns = 1`. -/
theorem ascii_fast_path_equiv_witness :
    calculateTextWidthUnicode demoTables [72, 105] 8 false WidthMethod.unicode =
      calculateTextWidthUnicode demoTables [72, 105] 8 true WidthMethod.unicode ∧
    calculateTextWidthUnicode demoTables [72, 105] 8 false WidthMethod.unicode =
      ([72, 105] : List Nat).length ∧
    findWrapPosByWidthUnicode demoTables [72, 105] 1 8 false WidthMethod.unicode =
      findWrapPosByWidthUnicode demoTables [72, 105] 1 8 true WidthMethod.unicode ∧
    findWrapPosByWidthUnicode demoTables [72, 105] 1 8 false WidthMethod.unicode =
      ⟨min 1 ([72, 105] : List Nat).length,
        min 1 ([72, 105] : List Nat).length,
        min 1 ([72, 105] : List Nat).length⟩ :=
  ascii_fast_path_equiv demoTables demoTables_asciiBreak [72, 105] (by decide) 1 8
    WidthMethod.unicode

/-! ## Claim C1: `find_wrap_pos_by_width` as a greedy scan over clusters -/

/-- Specification-side segmentation: the list of grapheme clusters (start
byte offset, cluster width) the wrap scan walks over, obtained by running
the same per-codepoint state machine as `wrapTailLoop` but never stopping
at the column limit.  The final pending cluster is emitted whenever one has
started (`prev_cp ≠ none`). -/
def clusterScan (T : UnicodeTables) (text : List Nat) (tab_width : Nat) :
    Nat → Nat → ClusterState → List (Nat × Nat)
  | 0, _, st =>
    if st.prev_cp ≠ Option.none then [(st.cluster_start, st.cluster_width)] else []
  | fuel + 1, pos, st =>
    if pos < text.length then
      let b0 := text.getD pos 0
      let curr_cp := if b0 < 0x80 then b0 else (decodeUtf8Unchecked text pos).cp
      let cp_len := if b0 < 0x80 then 1 else (decodeUtf8Unchecked text pos).len
      let br := isGraphemeBreak T st.prev_cp curr_cp st.break_state st.width_method
      let st1 := { st with break_state := br.2 }
      let go := fun (st2 : ClusterState) =>
        clusterScan T text tab_width fuel (pos + cp_len)
          { clusterWidthUpdate T st2 curr_cp (charWidth T b0 curr_cp tab_width) with
            prev_cp := Option.some curr_cp }
      if br.1 then
        match st1.prev_cp with
        | Option.some _ =>
          (st1.cluster_start, st1.cluster_width) ::
            go { st1 with
              columns_used := st1.columns_used + st1.cluster_width
              grapheme_count := st1.grapheme_count + 1
              cluster_width := 0
              cluster_start := pos
              cluster_started := false }
        | Option.none =>
          go { st1 with
            cluster_width := 0
            cluster_start := pos
            cluster_started := false }
      else go st1
    else
      if st.prev_cp ≠ Option.none then [(st.cluster_start, st.cluster_width)] else []

/-- Specification-side greedy wrap: consume clusters while they fit in
`max_columns`, stopping before the first one that would not; the final
cluster mirrors the final-cluster block of `findWrapPosByWidthUnicode`
(only a cluster of positive width is committed or refused there). -/
def greedyWrapClusters (text_len max_columns : Nat) :
    Nat → Nat → List (Nat × Nat) → WrapByWidthResult
  | cols, cnt, [] => ⟨text_len, cnt, cols⟩
  | cols, cnt, c :: rest =>
    if rest.isEmpty then
      if c.2 > 0 then
        if cols + c.2 > max_columns then ⟨c.1, cnt, cols⟩
        else ⟨text_len, cnt + 1, cols + c.2⟩
      else ⟨text_len, cnt, cols⟩
    else
      if cols + c.2 > max_columns then ⟨c.1, cnt, cols⟩
      else greedyWrapClusters text_len max_columns (cols + c.2) (cnt + 1) rest

/-- The UTF-8 encoding of "Hello 🌍 World". -/
def helloWorld : List Nat :=
  [72, 101, 108, 108, 111, 32, 0xF0, 0x9F, 0x8C, 0x8D, 32, 87, 111, 114, 108, 100]

theorem handleClusterForWrap_false (st : ClusterState) (ncs max_columns : Nat) :
    handleClusterForWrap st false ncs max_columns = Option.some st := by
  unfold handleClusterForWrap
  rw [if_neg Bool.false_ne_true]

theorem scanState_cols (T : UnicodeTables) (st : ClusterState) (c w : Nat)
    (v : Option Nat) :
    ({ clusterWidthUpdate T st c w with prev_cp := v } : ClusterState).columns_used
      = st.columns_used ∧
    ({ clusterWidthUpdate T st c w with prev_cp := v } : ClusterState).grapheme_count
      = st.grapheme_count := by
  unfold clusterWidthUpdate
  split
  · exact ⟨rfl, rfl⟩
  · exact ⟨rfl, rfl⟩

theorem clusterScan_ne_nil (T : UnicodeTables) (text : List Nat) (tab_width : Nat) :
    ∀ fuel pos st, st.prev_cp ≠ Option.none →
      clusterScan T text tab_width fuel pos st ≠ [] := by
  intro fuel
  induction fuel with
  | zero =>
    intro pos st h
    simp only [clusterScan]
    rw [if_pos h]
    exact List.cons_ne_nil _ _
  | succ fuel ih =>
    intro pos st h
    simp only [clusterScan]
    by_cases hp : pos < text.length
    · rw [if_pos hp]
      obtain ⟨q, hq⟩ : ∃ q, st.prev_cp = Option.some q := by
        cases hpc : st.prev_cp
        · exact absurd hpc h
        · exact ⟨_, rfl⟩
      rw [hq]
      cases hbr : (isGraphemeBreak T (Option.some q)
          (if text.getD pos 0 < 0x80 then text.getD pos 0
            else (decodeUtf8Unchecked text pos).cp)
          st.break_state st.width_method).1
      · rw [if_neg Bool.false_ne_true]
        exact ih _ _ (fun hcon => Option.noConfusion hcon)
      · rw [if_pos rfl]
        dsimp only
        exact List.cons_ne_nil _ _
    · rw [if_neg hp, if_pos h]
      exact List.cons_ne_nil _ _

theorem greedyWrapClusters_cons_stop (text_len max_columns cols cnt : Nat)
    (c : Nat × Nat) (rest : List (Nat × Nat)) (hne : rest ≠ [])
    (hstop : cols + c.2 > max_columns) :
    greedyWrapClusters text_len max_columns cols cnt (c :: rest) =
      ⟨c.1, cnt, cols⟩ := by
  obtain ⟨a, t, rfl⟩ := List.exists_cons_of_ne_nil hne
  simp only [greedyWrapClusters, List.isEmpty_cons]
  rw [if_neg Bool.false_ne_true, if_pos hstop]

theorem greedyWrapClusters_cons_go (text_len max_columns cols cnt : Nat)
    (c : Nat × Nat) (rest : List (Nat × Nat)) (hne : rest ≠ [])
    (hstop : ¬ cols + c.2 > max_columns) :
    greedyWrapClusters text_len max_columns cols cnt (c :: rest) =
      greedyWrapClusters text_len max_columns (cols + c.2) (cnt + 1) rest := by
  obtain ⟨a, t, rfl⟩ := List.exists_cons_of_ne_nil hne
  simp only [greedyWrapClusters, List.isEmpty_cons]
  rw [if_neg Bool.false_ne_true, if_neg hstop]

theorem wrapFinalize_eq_greedy_end (len max_columns : Nat) (st : ClusterState) :
    wrapFinalize len max_columns st =
      greedyWrapClusters len max_columns st.columns_used st.grapheme_count
        (if st.prev_cp ≠ Option.none then [(st.cluster_start, st.cluster_width)]
         else []) := by
  unfold wrapFinalize
  cases hpc : st.prev_cp
  · rw [if_neg (fun hcon => hcon.1 rfl), if_neg (fun hcon => hcon rfl)]
    rfl
  · by_cases hcw : st.cluster_width > 0
    · rw [if_pos ⟨fun hcon => Option.noConfusion hcon, hcw⟩,
        if_pos (fun hcon => Option.noConfusion hcon)]
      simp only [greedyWrapClusters, List.isEmpty_nil]
      rw [if_pos trivial, if_pos hcw]
    · rw [if_neg (fun hcon => hcw hcon.2),
        if_pos (fun hcon => Option.noConfusion hcon)]
      simp only [greedyWrapClusters, List.isEmpty_nil]
      rw [if_pos trivial, if_neg hcw]

theorem wrapTailLoop_eq_greedy (T : UnicodeTables) (text : List Nat)
    (max_columns tab_width : Nat) :
    ∀ fuel pos st,
      wrapTailLoop T text max_columns tab_width fuel pos st =
        greedyWrapClusters text.length max_columns st.columns_used
          st.grapheme_count (clusterScan T text tab_width fuel pos st) := by
  intro fuel
  induction fuel with
  | zero =>
    intro pos st
    simp only [wrapTailLoop, clusterScan]
    exact wrapFinalize_eq_greedy_end text.length max_columns st
  | succ fuel ih =>
    intro pos st
    by_cases hp : pos < text.length
    · simp only [wrapTailLoop, clusterScan]
      rw [if_pos hp, if_pos hp]
      cases hbr : (isGraphemeBreak T st.prev_cp
          (if text.getD pos 0 < 0x80 then text.getD pos 0
            else (decodeUtf8Unchecked text pos).cp)
          st.break_state st.width_method).1
      · rw [handleClusterForWrap_false]
        dsimp only
        rw [if_neg Bool.false_ne_true]
        rw [ih]
        rw [(scanState_cols T _ _ _ _).1, (scanState_cols T _ _ _ _).2]
      · cases hpc : st.prev_cp
        · rw [handleClusterForWrap_none _ rfl]
          dsimp only
          rw [if_pos rfl]
          rw [ih]
          rw [(scanState_cols T _ _ _ _).1, (scanState_cols T _ _ _ _).2]
        · rw [handleClusterForWrap_commit _ _ rfl]
          dsimp only
          rw [if_pos rfl]
          by_cases hstop : st.columns_used + st.cluster_width > max_columns
          · rw [if_pos hstop]
            dsimp only
            rw [greedyWrapClusters_cons_stop]
            · exact clusterScan_ne_nil T text tab_width fuel _ _
                (fun hcon => Option.noConfusion hcon)
            · exact hstop
          · rw [if_neg hstop]
            dsimp only
            rw [ih, greedyWrapClusters_cons_go]
            · rw [(scanState_cols T _ _ _ _).1, (scanState_cols T _ _ _ _).2]
            · exact clusterScan_ne_nil T text tab_width fuel _ _
                (fun hcon => Option.noConfusion hcon)
            · exact hstop
    · simp only [wrapTailLoop, clusterScan]
      rw [if_neg hp, if_neg hp]
      exact wrapFinalize_eq_greedy_end text.length max_columns st

theorem wrapFinalize_cols_le (len max_columns : Nat) (st : ClusterState)
    (hle : st.columns_used ≤ max_columns) :
    (wrapFinalize len max_columns st).columns_used ≤ max_columns := by
  unfold wrapFinalize
  by_cases h1 : st.prev_cp ≠ Option.none ∧ st.cluster_width > 0
  · rw [if_pos h1]
    by_cases h2 : st.columns_used + st.cluster_width > max_columns
    · rw [if_pos h2]
      exact hle
    · rw [if_neg h2]
      show st.columns_used + st.cluster_width ≤ max_columns
      omega
  · rw [if_neg h1]
    exact hle

theorem handleClusterForWrap_some_le (st st2 : ClusterState) (b : Bool)
    (ncs max_columns : Nat)
    (h : handleClusterForWrap st b ncs max_columns = Option.some st2)
    (hle : st.columns_used ≤ max_columns) : st2.columns_used ≤ max_columns := by
  unfold handleClusterForWrap at h
  by_cases hb : b = true
  · rw [if_pos hb] at h
    cases hpc : st.prev_cp <;> rw [hpc] at h <;> dsimp only at h
    · injection h with h2
      subst h2
      exact hle
    · by_cases hstop : st.columns_used + st.cluster_width > max_columns
      · rw [if_pos hstop] at h
        exact Option.noConfusion h
      · rw [if_neg hstop] at h
        injection h with h2
        subst h2
        show st.columns_used + st.cluster_width ≤ max_columns
        omega
  · rw [if_neg hb] at h
    injection h with h2
    subst h2
    exact hle

theorem wrapTailLoop_cols_le (T : UnicodeTables) (text : List Nat)
    (max_columns tab_width : Nat) :
    ∀ fuel pos st, st.columns_used ≤ max_columns →
      (wrapTailLoop T text max_columns tab_width fuel pos st).columns_used ≤
        max_columns := by
  intro fuel
  induction fuel with
  | zero =>
    intro pos st hle
    simp only [wrapTailLoop]
    exact wrapFinalize_cols_le text.length max_columns st hle
  | succ fuel ih =>
    intro pos st hle
    simp only [wrapTailLoop]
    by_cases hp : pos < text.length
    · rw [if_pos hp]
      cases hh : handleClusterForWrap
          { st with
            break_state := (isGraphemeBreak T st.prev_cp
              (if text.getD pos 0 < 0x80 then text.getD pos 0
                else (decodeUtf8Unchecked text pos).cp)
              st.break_state st.width_method).2 }
          (isGraphemeBreak T st.prev_cp
            (if text.getD pos 0 < 0x80 then text.getD pos 0
              else (decodeUtf8Unchecked text pos).cp)
            st.break_state st.width_method).1 pos max_columns with
      | none =>
        exact hle
      | some st2 =>
        have hst2 := handleClusterForWrap_some_le _ _ _ _ _ hh hle
        refine ih _ _ ?_
        rw [(scanState_cols T st2 _ _ _).1]
        exact hst2
    · rw [if_neg hp]
      exact wrapFinalize_cols_le text.length max_columns st hle

theorem wrapWCLoop_cols_le (T : UnicodeTables) (text : List Nat)
    (max_columns tab_width : Nat) :
    ∀ fuel pos cols cnt, cols ≤ max_columns →
      (wrapWCLoop T text max_columns tab_width fuel pos cols cnt).columns_used ≤
        max_columns := by
  intro fuel
  induction fuel with
  | zero =>
    intro pos cols cnt hle
    exact hle
  | succ fuel ih =>
    intro pos cols cnt hle
    simp only [wrapWCLoop]
    by_cases hp : pos < text.length
    · rw [if_pos hp]
      by_cases hb : text.getD pos 0 < 0x80
      · simp only [if_pos hb]
        split
        · exact hle
        · split
          · exact hle
          · split
            · exact hle
            · rename_i h3
              exact ih _ _ _ (by omega)
      · simp only [if_neg hb]
        split
        · exact hle
        · split
          · exact hle
          · split
            · exact hle
            · rename_i h3
              exact ih _ _ _ (by omega)
    · rw [if_neg hp]
      exact hle

/-- C1, counterexample: under the wcwidth policy the scan is per-codepoint
and can stop in the middle of a grapheme cluster.  On "é" encoded as
e + COMBINING ACUTE ACCENT (`[0x65, 0xCC, 0x81]`, a single cluster of
width 1 spanning bytes 0..3) with `max_columns = 1`, the code returns
byte offset 1 — not a cluster boundary — while the greatest
cluster-boundary prefix of width ≤ 1 is the whole string, `⟨3, 1, 1⟩`. -/
theorem findWrapPosByWidth_wcwidth_mid_cluster :
    findWrapPosByWidth demoTables [0x65, 0xCC, 0x81] 1 8 false
      WidthMethod.wcwidth = ⟨1, 1, 1⟩ ∧
    clusterScan demoTables [0x65, 0xCC, 0x81] 8 3 0
      (ClusterState.init WidthMethod.wcwidth) = [(0, 1)] ∧
    greedyWrapClusters 3 1 0 0 [(0, 1)] = ⟨3, 1, 1⟩ ∧
    (⟨1, 1, 1⟩ : WrapByWidthResult) ≠ ⟨3, 1, 1⟩ :=
  ⟨by decide, by decide, by decide, by decide⟩

/-- **C1** (amended).  Under the unicode and no_zwj policies,
`findWrapPosByWidth` is exactly the greedy cluster consumer
`greedyWrapClusters` applied to the cluster segmentation `clusterScan` of
the text: it commits clusters while they fit, stops before the first
cluster that would exceed `max_columns` (so `columns_used ≤ max_columns`
always holds, for every policy and ASCII flag), and returns zeros for
empty input or `max_columns = 0`; a final cluster of width 0 is not
counted, and under the wcwidth policy the scan is per-codepoint rather
than per-cluster.  The "Hello 🌍 World" examples hold as claimed. -/
theorem findWrapPosByWidth_greedy (T : UnicodeTables) (text : List Nat)
    (max_columns tab_width : Nat) :
    (findWrapPosByWidth T text max_columns tab_width false WidthMethod.unicode =
      if text.length = 0 ∨ max_columns = 0 then ⟨0, 0, 0⟩
      else greedyWrapClusters text.length max_columns 0 0
        (clusterScan T text tab_width text.length 0
          (ClusterState.init WidthMethod.unicode))) ∧
    (findWrapPosByWidth T text max_columns tab_width false WidthMethod.no_zwj =
      if text.length = 0 ∨ max_columns = 0 then ⟨0, 0, 0⟩
      else greedyWrapClusters text.length max_columns 0 0
        (clusterScan T text tab_width text.length 0
          (ClusterState.init WidthMethod.no_zwj))) ∧
    (∀ flag wm, (findWrapPosByWidth T text max_columns tab_width flag
      wm).columns_used ≤ max_columns) ∧
    (∀ flag wm, findWrapPosByWidth T [] max_columns tab_width flag wm =
      ⟨0, 0, 0⟩) ∧
    (∀ flag wm, findWrapPosByWidth T text 0 tab_width flag wm = ⟨0, 0, 0⟩) ∧
    findWrapPosByWidth demoTables helloWorld 7 8 false WidthMethod.unicode =
      ⟨6, 6, 6⟩ ∧
    findWrapPosByWidth demoTables helloWorld 8 8 false WidthMethod.unicode =
      ⟨10, 7, 8⟩ := by
  have hgreedy : ∀ wm, findWrapPosByWidthUnicode T text max_columns tab_width
      false wm =
      if text.length = 0 ∨ max_columns = 0 then ⟨0, 0, 0⟩
      else greedyWrapClusters text.length max_columns 0 0
        (clusterScan T text tab_width text.length 0 (ClusterState.init wm)) := by
    intro wm
    unfold findWrapPosByWidthUnicode
    by_cases hg : text.length = 0 ∨ max_columns = 0
    · rw [if_pos hg, if_pos hg]
    · rw [if_neg hg, if_neg hg, if_neg Bool.false_ne_true]
      rw [wrapVecLoop_eq_tail T text max_columns tab_width]
      exact wrapTailLoop_eq_greedy T text max_columns tab_width text.length 0
        (ClusterState.init wm)
  have hcols : ∀ flag wm, (findWrapPosByWidth T text max_columns tab_width flag
      wm).columns_used ≤ max_columns := by
    intro flag wm
    have hfast : ∀ r : WrapByWidthResult,
        (if text.length = 0 ∨ max_columns = 0 then (⟨0, 0, 0⟩ : WrapByWidthResult)
          else if flag = true then
            (if max_columns ≥ text.length then
              (⟨text.length, text.length, text.length⟩ : WrapByWidthResult)
              else ⟨max_columns, max_columns, max_columns⟩)
          else r) = r ∨
        (if text.length = 0 ∨ max_columns = 0 then (⟨0, 0, 0⟩ : WrapByWidthResult)
          else if flag = true then
            (if max_columns ≥ text.length then
              (⟨text.length, text.length, text.length⟩ : WrapByWidthResult)
              else ⟨max_columns, max_columns, max_columns⟩)
          else r).columns_used ≤ max_columns := by
      intro r
      by_cases hg : text.length = 0 ∨ max_columns = 0
      · rw [if_pos hg]
        right
        exact Nat.zero_le _
      · rw [if_neg hg]
        by_cases hf : flag = true
        · rw [if_pos hf]
          right
          by_cases hml : max_columns ≥ text.length
          · rw [if_pos hml]
            exact hml
          · rw [if_neg hml]
        · rw [if_neg hf]
          left
          rfl
    cases wm
    · simp only [findWrapPosByWidth]
      unfold findWrapPosByWidthWCWidth
      rcases hfast (wrapWCLoop T text max_columns tab_width text.length 0 0 0)
        with h | h
      · rw [h]
        exact wrapWCLoop_cols_le T text max_columns tab_width text.length 0 0 0
          (Nat.zero_le _)
      · exact h
    · simp only [findWrapPosByWidth]
      unfold findWrapPosByWidthUnicode
      rcases hfast (wrapVecLoop T text max_columns tab_width text.length 0
          (ClusterState.init WidthMethod.unicode)) with h | h
      · rw [h, wrapVecLoop_eq_tail T text max_columns tab_width]
        exact wrapTailLoop_cols_le T text max_columns tab_width text.length 0 _
          (Nat.zero_le _)
      · exact h
    · simp only [findWrapPosByWidth]
      unfold findWrapPosByWidthUnicode
      rcases hfast (wrapVecLoop T text max_columns tab_width text.length 0
          (ClusterState.init WidthMethod.no_zwj)) with h | h
      · rw [h, wrapVecLoop_eq_tail T text max_columns tab_width]
        exact wrapTailLoop_cols_le T text max_columns tab_width text.length 0 _
          (Nat.zero_le _)
      · exact h
  refine ⟨hgreedy WidthMethod.unicode, hgreedy WidthMethod.no_zwj, hcols,
    ?_, ?_, by decide, by decide⟩
  · intro flag wm
    have h1 : ([] : List Nat).length = 0 ∨ max_columns = 0 := Or.inl rfl
    cases wm
    · simp only [findWrapPosByWidth]
      unfold findWrapPosByWidthWCWidth
      rw [if_pos h1]
    · simp only [findWrapPosByWidth]
      unfold findWrapPosByWidthUnicode
      rw [if_pos h1]
    · simp only [findWrapPosByWidth]
      unfold findWrapPosByWidthUnicode
      rw [if_pos h1]
  · intro flag wm
    have h2 : text.length = 0 ∨ (0 : Nat) = 0 := Or.inr rfl
    cases wm
    · simp only [findWrapPosByWidth]
      unfold findWrapPosByWidthWCWidth
      rw [if_pos h2]
    · simp only [findWrapPosByWidth]
      unfold findWrapPosByWidthUnicode
      rw [if_pos h2]
    · simp only [findWrapPosByWidth]
      unfold findWrapPosByWidthUnicode
      rw [if_pos h2]
